import Mathlib
set_option maxRecDepth 4096

/-!
Shallow embedding of the `flac` Go package (a FLAC decoder) and proofs
about it.  Go source files embedded here: `decode.go` and `utf8.go`.

Conventions of the embedding:
* Go byte streams are `List Nat` (each element a byte value `< 256`).
* Go `int32` values are `Int`s kept in `[-2^31, 2^31)`; every Go `int32`
  operation is wrapped with `wrap32`, mirroring two's-complement overflow.
* Go `int` / `uint64` values are `Int` / `Nat`; no computation in this
  code comes near 2^63, so unbounded integers are faithful.
* Fallible Go functions return `Outcome`: `ok` for normal returns,
  `fail` for non-nil `error` returns, and `panicked` for Go runtime
  panics (explicit `panic(...)` calls and slice/index violations).
* Loops whose trip count is not structurally bounded (the unary loops)
  take an explicit fuel argument; callers pass more fuel than bits in
  the stream, so fuel exhaustion is unreachable on real executions and
  is mapped to `fail`.
-/

/-- Result of a Go computation: a normal value, an `error` return, or a
runtime panic. -/
inductive Outcome (α : Type) where
  | ok (a : α)
  | fail (msg : String)
  | panicked (msg : String)
deriving Repr, DecidableEq

def Outcome.bind {α β : Type} : Outcome α → (α → Outcome β) → Outcome β
  | .ok a, f => f a
  | .fail m, _ => .fail m
  | .panicked m, _ => .panicked m

def Outcome.map {α β : Type} (f : α → β) : Outcome α → Outcome β
  | .ok a => .ok (f a)
  | .fail m => .fail m
  | .panicked m => .panicked m

instance : Monad Outcome where
  pure := .ok
  bind := Outcome.bind
  map := Outcome.map

/-- Interpret the low 32 bits of an integer as a signed two's-complement
value: the result of any Go `int32` arithmetic operation. -/
def wrap32 (z : Int) : Int :=
  (z + 2 ^ 31) % 2 ^ 32 - 2 ^ 31

/-- Go `int32` addition. -/
def add32 (a b : Int) : Int := wrap32 (a + b)

/-- Go `int32` subtraction. -/
def sub32 (a b : Int) : Int := wrap32 (a - b)

/-- Go `int32` multiplication. -/
def mul32 (a b : Int) : Int := wrap32 (a * b)

/-- Go arithmetic right shift `>>` on a signed value.  On `Int`,
`x >>> n` is floor division by `2^n`, which is exactly the arithmetic
shift for any value in the `int32` range. -/
def sar (x : Int) (n : Nat) : Int := x >>> n

/-- Go truncated division `/` on signed integers (rounds toward zero). -/
def goDiv (a b : Int) : Int := Int.tdiv a b

/-- Reinterpret a `uint64`-style natural as a Go `int32`
(`int32(v)`: truncate to the low 32 bits, then read as signed). -/
def toInt32 (v : Nat) : Int :=
  if v % 2 ^ 32 < 2 ^ 31 then ((v % 2 ^ 32 : Nat) : Int)
  else ((v % 2 ^ 32 : Nat) : Int) - 2 ^ 32

/-- The 8 bits of a byte, most significant first. -/
def bitsOfByte (b : Nat) : List Bool :=
  [b / 128 % 2 == 1, b / 64 % 2 == 1, b / 32 % 2 == 1, b / 16 % 2 == 1,
   b / 8 % 2 == 1, b / 4 % 2 == 1, b / 2 % 2 == 1, b % 2 == 1]

/-- Big-endian value of a bit string (first bit is most significant). -/
def natOfBits (bs : List Bool) : Nat :=
  bs.foldl (fun acc b => 2 * acc + (if b then 1 else 0)) 0

/-- State of `bit.NewReader(io.TeeReader(r, raw))`: bits already pulled
out of the byte source but not yet consumed (`buf`, MSB first), the
remaining bytes of the source (`rest`), and every byte pulled so far
(`consumed` — the tee buffer used for CRC checks).

Modelled from the spec: the `bit.Reader` package is an external
dependency (not under the repository's decoder sources); §4.1 of the
spec defines `read(n)` as returning the next `n` bits MSB-first,
failing when the source is exhausted mid-value. -/
structure Reader where
  buf : List Bool
  rest : List Nat
  consumed : List Nat
deriving Repr, DecidableEq

/-- A fresh bit reader over a byte stream. -/
def Reader.mk0 (s : List Nat) : Reader := ⟨[], s, []⟩

/-- `br.Read(n)`: read `n` bits MSB-first, pulling whole bytes from the
source as needed. -/
def readBits (n : Nat) (r : Reader) : Outcome (Nat × Reader) :=
  let need := n - r.buf.length
  let k := (need + 7) / 8
  if r.rest.length < k then .fail "EOF" else
  let buf' := r.buf ++ (r.rest.take k).flatMap bitsOfByte
  .ok (natOfBits (buf'.take n),
       ⟨buf'.drop n, r.rest.drop k, r.consumed ++ r.rest.take k⟩)

/-- `io.ReadFull` of `n` bytes taken directly from the byte source
(bypassing the bit buffer, as `Next` does for the frame CRC-16). -/
def readBytesDirect (n : Nat) (r : Reader) : Outcome (List Nat × Reader) :=
  if r.rest.length < n then .fail "EOF" else
  .ok (r.rest.take n, ⟨[], r.rest.drop n, r.consumed ++ r.rest.take n⟩)

/-- One step of CRC-8 with polynomial 0x07 (MSB first). -/
def crc8Byte (crc b : Nat) : Nat :=
  let step := fun (c : Nat) =>
    if c &&& 0x80 ≠ 0 then ((c <<< 1) ^^^ 0x07) &&& 0xFF else (c <<< 1) &&& 0xFF
  step (step (step (step (step (step (step (step (crc ^^^ b))))))))

/-- CRC-8 (poly 0x07, init 0) of a byte string.

Modelled from the spec: the CRC unit (`crc.go`) is not among the
decoder sources provided; §3 of the spec fixes polynomial 0x07 and
initial value 0, computed over the frame-header bytes. -/
def crc8 (data : List Nat) : Nat := data.foldl crc8Byte 0

/-- One step of CRC-16 with polynomial 0x8005 (MSB first). -/
def crc16Byte (crc b : Nat) : Nat :=
  let step := fun (c : Nat) =>
    if c &&& 0x8000 ≠ 0 then ((c <<< 1) ^^^ 0x8005) &&& 0xFFFF
    else (c <<< 1) &&& 0xFFFF
  step (step (step (step (step (step (step (step (crc ^^^ (b <<< 8)))))))))

/-- CRC-16 (poly 0x8005, init 0) of a byte string.

Modelled from the spec: the CRC unit is not among the decoder sources
provided; §3 of the spec fixes polynomial 0x8005 and initial value 0,
computed over the whole frame excluding the two trailing CRC bytes. -/
def crc16 (data : List Nat) : Nat := data.foldl crc16Byte 0

/-- `verifyCRC8(raw)`: the last byte of the raw header must equal the
CRC-8 of everything before it.

Modelled from the spec: §4.4 item 10 — the 8-bit CRC field "must equal
CRC-8 over all preceding raw header bytes; else `BadChecksum`". -/
def verifyCRC8 (data : List Nat) : Outcome Unit :=
  if crc8 (data.dropLast) = data.getLastD 0 then .ok () else .fail "Bad checksum"

/-- `verifyCRC16(raw)`: the big-endian 16-bit value in the last two raw
frame bytes must equal the CRC-16 of everything before them.

Modelled from the spec: §3 and §4.9 — CRC-16 covers the whole frame
including the CRC-8 but excluding the final two CRC-16 bytes. -/
def verifyCRC16 (data : List Nat) : Outcome Unit :=
  if data.length < 2 then .fail "Bad checksum" else
  if crc16 (data.take (data.length - 2)) =
      256 * data.getD (data.length - 2) 0 + data.getD (data.length - 1) 0
  then .ok () else .fail "Bad checksum"

/-- `signExtend(v, bits)` from decode.go: interpret the low `bits` bits
of `v` as a signed value, then truncate to `int32` exactly as the Go
conversion `int32(...)` of the or-extended `uint64` does. -/
def signExtend (v : Nat) (bits : Nat) : Int :=
  if v &&& (1 <<< (bits - 1)) ≠ 0 then
    toInt32 (v ||| ((2 ^ 64 - 1) <<< bits))
  else
    toInt32 v

/-- The continuation-byte loop of `utf8Decode` (utf8.go lines 48-62):
read `left` bytes of the form `10xxxxxx`, accumulating 6 bits each. -/
def utf8Cont : Nat → Nat → Reader → Outcome (Nat × Reader)
  | 0, v, r => .ok (v, r)
  | left + 1, v, r =>
    (readBits 8 r).bind fun br =>
      if br.1 &&& 0xC0 ≠ 0x80 then .fail "Bad UTF-8 encoding in frame header"
      else utf8Cont left ((v <<< 6) ||| (br.1 &&& 0x3F)) br.2

/-- `utf8Decode` from utf8.go: the FLAC extended-UTF-8 integer decoder.
A lead byte matching none of the six recognized patterns falls through
the Go `switch` with `left = 0, v = 0` and returns `(0, nil)`. -/
def utf8Decode (r : Reader) : Outcome (Nat × Reader) :=
  (readBits 8 r).bind fun br =>
    let b0 := br.1
    if b0 &&& 0x80 = 0 then .ok (b0 &&& 0x7F, br.2)
    else if b0 &&& 0xE0 = 0xC0 then utf8Cont 1 (b0 &&& 0x1F) br.2
    else if b0 &&& 0xF0 = 0xE0 then utf8Cont 2 (b0 &&& 0xF) br.2
    else if b0 &&& 0xF8 = 0xF0 then utf8Cont 3 (b0 &&& 0x7) br.2
    else if b0 &&& 0xFC = 0xF8 then utf8Cont 4 (b0 &&& 0x3) br.2
    else if b0 &&& 0xFE = 0xFC then utf8Cont 5 (b0 &&& 0x1) br.2
    else utf8Cont 0 0 br.2

/-- Modelled from the spec: the extended-UTF-8 *encoder* is not part of
the repository; §4.2 and §8 describe it as the standard UTF-8
continuation pattern (6 bits per continuation byte) extended to 7-byte
sequences for values up to `2^36 - 1`, using the shortest form. -/
def utf8Encode (v : Nat) : List Nat :=
  if v ≤ 0x7F then [v]
  else if v ≤ 0x7FF then
    [0xC0 + v / 64, 0x80 + v % 64]
  else if v ≤ 0xFFFF then
    [0xE0 + v / 4096, 0x80 + v / 64 % 64, 0x80 + v % 64]
  else if v ≤ 0x1FFFFF then
    [0xF0 + v / 262144, 0x80 + v / 4096 % 64, 0x80 + v / 64 % 64,
     0x80 + v % 64]
  else if v ≤ 0x3FFFFFF then
    [0xF8 + v / 16777216, 0x80 + v / 262144 % 64, 0x80 + v / 4096 % 64,
     0x80 + v / 64 % 64, 0x80 + v % 64]
  else if v ≤ 0x7FFFFFFF then
    [0xFC + v / 1073741824, 0x80 + v / 16777216 % 64, 0x80 + v / 262144 % 64,
     0x80 + v / 4096 % 64, 0x80 + v / 64 % 64, 0x80 + v % 64]
  else
    [0xFE, 0x80 + v / 1073741824 % 64, 0x80 + v / 16777216 % 64,
     0x80 + v / 262144 % 64, 0x80 + v / 4096 % 64, 0x80 + v / 64 % 64,
     0x80 + v % 64]

/-- `StreamInfo` from decode.go. -/
structure StreamInfo where
  MinBlock : Nat
  MaxBlock : Nat
  MinFrame : Nat
  MaxFrame : Nat
  SampleRate : Nat
  NChannels : Nat
  BitsPerSample : Nat
  TotalSamples : Nat
  MD5 : List Nat
deriving Repr, DecidableEq

/-- `readStreamInfo` from decode.go: bit fields 16,16,24,24,20,3,5,36,
then the 16 MD5 bytes (a wrong-sized remainder is a Go `panic`), then
the zero-sample-rate check (returned as a non-nil `error`). -/
def readStreamInfo (block : List Nat) : Outcome StreamInfo :=
  (readBits 16 (Reader.mk0 block)).bind fun f0 =>
  (readBits 16 f0.2).bind fun f1 =>
  (readBits 24 f1.2).bind fun f2 =>
  (readBits 24 f2.2).bind fun f3 =>
  (readBits 20 f3.2).bind fun f4 =>
  (readBits 3 f4.2).bind fun f5 =>
  (readBits 5 f5.2).bind fun f6 =>
  (readBits 36 f6.2).bind fun f7 =>
    let csum := f7.2.rest
    if csum.length ≠ 16 then .panicked "Bad MD5 checksum size" else
    let info : StreamInfo :=
      { MinBlock := f0.1, MaxBlock := f1.1, MinFrame := f2.1,
        MaxFrame := f3.1, SampleRate := f4.1, NChannels := f5.1 + 1,
        BitsPerSample := f6.1 + 1, TotalSamples := f7.1, MD5 := csum }
    if info.SampleRate = 0 then .fail "Bad sample rate" else .ok info

/-- `binary.LittleEndian.Uint32`: panics (index out of range) when the
slice holds fewer than 4 bytes. -/
def leUint32 (data : List Nat) : Outcome Nat :=
  if data.length < 4 then .panicked "index out of range" else
  .ok (data.getD 0 0 + 256 * data.getD 1 0 + 65536 * data.getD 2 0 +
       16777216 * data.getD 3 0)

/-- `vorbisString` from decode.go: a 32-bit little-endian length `n`
followed by `n` raw bytes.  Both the `Uint32` read and the `data[:n]`
slice can panic on short input. -/
def vorbisString (data : List Nat) : Outcome (List Nat × List Nat) :=
  (leUint32 data).bind fun n =>
    let d := data.drop 4
    if d.length < n then .panicked "slice bounds out of range"
    else .ok (d.take n, d.drop n)

/-- `VorbisComment` from decode.go (strings kept as raw bytes). -/
structure VorbisComment where
  Vendor : List Nat
  Comments : List (List Nat)
deriving Repr, DecidableEq

/-- The comment loop of `readVorbisComment`. -/
def vorbisComments : Nat → List Nat → Outcome (List (List Nat))
  | 0, _ => .ok []
  | i + 1, data =>
    (vorbisString data).bind fun sd =>
      (vorbisComments i sd.2).map fun rest => sd.1 :: rest

/-- `readVorbisComment` from decode.go. -/
def readVorbisComment (block : List Nat) : Outcome VorbisComment :=
  (vorbisString block).bind fun vd =>
  (leUint32 vd.2).bind fun n =>
  (vorbisComments n (vd.2.drop 4)).map fun cs =>
    { Vendor := vd.1, Comments := cs }

/-- `readMetaDataHeader` from decode.go: 1-bit last flag, 7-bit block
type, 24-bit length. -/
def readMetaDataHeader (s : List Nat) :
    Outcome ((Bool × Nat × Nat) × List Nat) :=
  (readBits 1 (Reader.mk0 s)).bind fun f0 =>
  (readBits 7 f0.2).bind fun f1 =>
  (readBits 24 f1.2).map fun f2 =>
    ((f0.1 = 1, f1.1, f2.1), f2.2.rest)

/-- `MetaData` from decode.go. -/
structure MetaData where
  streamInfo : Option StreamInfo
  vorbis : Option VorbisComment
deriving Repr, DecidableEq

/-- The `switch kind` body of `readMetaData`: parse STREAMINFO and
VORBIS_COMMENT blocks, reject type 127, skip everything else. -/
def processMetaBlock (kind : Nat) (block : List Nat) (meta : MetaData) :
    Outcome MetaData :=
  if kind = 127 then .fail "Invalid metedata block type (127)"
  else if kind = 0 then
    (readStreamInfo block).map fun si => { meta with streamInfo := some si }
  else if kind = 4 then
    (readVorbisComment block).map fun vc => { meta with vorbis := some vc }
  else .ok meta

/-- The metadata loop of `readMetaData`, with fuel (each iteration
consumes at least the 4 header bytes, so `s.length + 1` fuel always
suffices). -/
def readMetaDataLoop : Nat → MetaData → List Nat → Outcome (MetaData × List Nat)
  | 0, _, _ => .fail "out of fuel"
  | fuel + 1, meta, s =>
    (readMetaDataHeader s).bind fun hs =>
      let last := hs.1.1
      let kind := hs.1.2.1
      let n := hs.1.2.2
      (processMetaBlock kind (hs.2.take n) meta).bind fun meta' =>
        if last then .ok (meta', hs.2.drop n)
        else readMetaDataLoop fuel meta' (hs.2.drop n)

/-- `readMetaData` from decode.go. -/
def readMetaData (s : List Nat) : Outcome (MetaData × List Nat) :=
  readMetaDataLoop (s.length + 1) ⟨none, none⟩ s

/-- `checkMagic` from decode.go. -/
def checkMagic (s : List Nat) : Outcome (List Nat) :=
  if s.length < 4 then .fail "EOF" else
  if s.take 4 = [102, 76, 97, 67] then .ok (s.drop 4)
  else .fail "Bad fLaC magic header"

/-- `NewDecoder` from decode.go: check the magic, walk the metadata,
require a STREAMINFO block.  Returns the decoder's metadata and the
unconsumed byte stream. -/
def newDecoder (s : List Nat) : Outcome (MetaData × List Nat) :=
  (checkMagic s).bind fun s1 =>
  (readMetaData s1).bind fun ms =>
    match ms.1.streamInfo with
    | none => .fail "Missing STREAMINFO header"
    | some _ => .ok ms

/-- The `blockSizes` table from decode.go (entry 15 is the literal
`23768` that appears in the source). -/
def blockSizes : List Int :=
  [-1, 192, 576, 1152, 2304, 4608, -1, -1,
   256, 512, 1024, 2048, 4096, 8192, 16384, 23768]

/-- The `sampleRates` table from decode.go (entry 6 is the literal
`220500` that appears in the source). -/
def sampleRates : List Int :=
  [-1, 88200, 176400, 192000, 8000, 16000, 220500, 24000,
   32000, 44100, 48000, 96000, -1, -1, -1, -1]

/-- The `sampleSizes` table from decode.go. -/
def sampleSizes : List Int := [-1, 8, 12, -1, 16, 20, 24, -1]

/-- `frameHeader` from decode.go. -/
structure FrameHeader where
  variableSize : Bool
  blockSize : Int
  sampleRate : Int
  channelAssignment : Nat
  sampleSize : Int
  number : Nat
  crc8 : Nat
deriving Repr, DecidableEq

/-- `channelAssignment.nChannels()` from decode.go. -/
def nChannels (c : Nat) : Nat := if c < 8 then c + 1 else 2

/-- `frameHeader.bitsPerSample(subframe)` from decode.go: the side
channel of a stereo-decorrelated pair is one bit wider. -/
def FrameHeader.bitsPerSample (h : FrameHeader) (sub : Nat) : Nat :=
  h.sampleSize.toNat +
    (if (h.channelAssignment = 8 ∧ sub = 1) ∨
        (h.channelAssignment = 9 ∧ sub = 0) ∨
        (h.channelAssignment = 10 ∧ sub = 1) then 1 else 0)

/-- `readFrameHeader` from decode.go: sync code, fixed fields, UTF-8
frame/sample number, block-size and sample-rate tails, CRC-8. -/
def readFrameHeader (info : StreamInfo) (r : Reader) :
    Outcome (FrameHeader × Reader) :=
  let start := r.consumed.length
  (readBits 14 r).bind fun sy =>
  if sy.1 ≠ 0x3FFE then
    .fail "Failed to find the synchronize code for the next frame" else
  (readBits 1 sy.2).bind fun f0 =>
  (readBits 1 f0.2).bind fun f1 =>
  (readBits 4 f1.2).bind fun f2 =>
  (readBits 4 f2.2).bind fun f3 =>
  (readBits 4 f3.2).bind fun f4 =>
  (readBits 3 f4.2).bind fun f5 =>
  (readBits 1 f5.2).bind fun f6 =>
  if f0.1 ≠ 0 ∨ f6.1 ≠ 0 then .fail "Invalid reserved value in frame header" else
  if f4.1 > 10 then .fail "Bad channel assignment" else
  ((if f5.1 = 0 then .ok (Int.ofNat info.BitsPerSample)
    else if f5.1 = 3 ∨ f5.1 = 7 then .fail "Bad sample size in frame header"
    else .ok (sampleSizes.getD f5.1 0) : Outcome Int)).bind fun sampleSize =>
  (utf8Decode f6.2).bind fun num =>
  ((if f2.1 = 0 then .fail "Bad block size in frame header"
    else if f2.1 = 6 then
      (readBits 8 num.2).map fun sz => (Int.ofNat sz.1 + 1, sz.2)
    else if f2.1 = 7 then
      (readBits 16 num.2).map fun sz => (Int.ofNat sz.1 + 1, sz.2)
    else .ok (blockSizes.getD f2.1 0, num.2) : Outcome (Int × Reader))).bind fun bs =>
  ((if f3.1 = 0 then .ok (Int.ofNat info.SampleRate, bs.2)
    else if f3.1 = 12 then
      (readBits 8 bs.2).map fun sr => (Int.ofNat sr.1, sr.2)
    else if f3.1 = 13 then
      (readBits 16 bs.2).map fun sr => (Int.ofNat sr.1, sr.2)
    else if f3.1 = 14 then
      (readBits 16 bs.2).map fun sr => (Int.ofNat (sr.1 * 10), sr.2)
    else .ok (sampleRates.getD f3.1 0, bs.2) : Outcome (Int × Reader))).bind fun sr =>
  (readBits 8 sr.2).bind fun c8 =>
  (verifyCRC8 (c8.2.consumed.drop start)).map fun _ =>
    ({ variableSize := f1.1 = 1, blockSize := bs.1, sampleRate := sr.1,
       channelAssignment := f4.1, sampleSize := sampleSize,
       number := num.1, crc8 := c8.1 }, c8.2)

/-- Subframe kinds from decode.go. -/
inductive SubFrameKind where
  | constant
  | verbatim
  | fixed
  | lpc
deriving Repr, DecidableEq

/-- Bits remaining in a reader (used only to size fuel for the unary
loops; every unary loop consumes one bit per iteration). -/
def bitsLeft (r : Reader) : Nat := r.buf.length + 8 * r.rest.length

/-- The wasted-bits unary loop of `readSubFrameHeader`: after a set
flag bit, read bits until a 1 appears.  (The Go code counts these bits
in `n` but only prints the count to the debug sink; the count is
otherwise discarded.) -/
def wastedLoop : Nat → Reader → Outcome Reader
  | 0, _ => .fail "out of fuel"
  | fuel + 1, r =>
    (readBits 1 r).bind fun b =>
      if b.1 = 0 then wastedLoop fuel b.2 else .ok b.2

/-- `readSubFrameHeader` from decode.go: 1 padding bit (value ignored),
6-bit type code, wasted-bits prefix (consumed, count discarded).
Returns only the kind and predictor order, as the source does. -/
def readSubFrameHeader (r : Reader) : Outcome ((SubFrameKind × Nat) × Reader) :=
  (readBits 1 r).bind fun pad =>
  (readBits 6 pad.2).bind fun k6 =>
  (let k := k6.1
   if k = 0 then .ok (SubFrameKind.constant, 0)
   else if k = 1 then .ok (SubFrameKind.verbatim, 0)
   else if k &&& 0x3E = 0x02 ∨ k &&& 0x3C = 0x04 ∨ k &&& 0x30 = 0x10 then
     .fail "Bad subframe type"
   else if k &&& 0x38 = 0x08 then
     if k &&& 0x07 > 4 then .fail "Bad subframe type"
     else .ok (SubFrameKind.fixed, k &&& 0x07)
   else if k &&& 0x20 = 0x20 then .ok (SubFrameKind.lpc, (k &&& 0x1F) + 1)
   else (.panicked "Impossible!" : Outcome (SubFrameKind × Nat))).bind fun ko =>
  (readBits 1 k6.2).bind fun flag =>
  if flag.1 = 1 then
    (wastedLoop (bitsLeft flag.2 + 1) flag.2).map fun r' => (ko, r')
  else .ok (ko, flag.2)

/-- `readInts` from decode.go: `n` sign-extended `bits`-wide integers. -/
def readInts : Nat → Nat → Reader → Outcome (List Int × Reader)
  | 0, _, r => .ok ([], r)
  | n + 1, bits, r =>
    (readBits bits r).bind fun w =>
      (readInts n bits w.2).map fun ir => (signExtend w.1 bits :: ir.1, ir.2)

/-- `fixedCoeffs` from decode.go (slot 0 is the unused sentinel). -/
def fixedCoeffs : List (List Int) :=
  [[], [1], [2, -1], [3, -3, 1], [4, -6, 4, -1]]

/-- The inner coefficient loop of `predict`: accumulate the `int32` sum
and (as the source does) re-assign `data[i]` on every iteration; the
last write wins.  All indices are in range whenever
`coeffs.length = warm.length`, which holds at both call sites. -/
def predictInner (residual : List Int) (shift p i : Nat) :
    List Int → Nat → Int → List Int → List Int
  | [], _, _, data => data
  | c :: cs, j, sum, data =>
    let sum' := add32 sum (mul32 c (data.getD (i - j - 1) 0))
    let data' := data.set i (add32 (residual.getD (i - p) 0) (sar sum' shift))
    predictInner residual shift p i cs (j + 1) sum' data'

/-- The outer sample loop of `predict`: runs `cnt` more iterations
starting at index `i`. -/
def predictLoop (coeffs residual : List Int) (shift p : Nat) :
    Nat → Nat → List Int → List Int
  | _, 0, data => data
  | i, cnt + 1, data =>
    predictLoop coeffs residual shift p (i + 1) cnt
      (predictInner residual shift p i coeffs 0 0 data)

/-- `predict` from decode.go: allocate `len(warm)+len(residual)` zeroed
samples, copy the warm-up values, then run the prediction loop.  The
Go `shift` parameter is an `int` converted with `uint(shift)`; every
call site guarantees it is non-negative, so it is taken as `Nat`. -/
def predict (coeffs warm residual : List Int) (shift : Nat) : List Int :=
  predictLoop coeffs residual shift warm.length warm.length residual.length
    (warm ++ List.replicate residual.length 0)

/-- The unary quotient loop of `riceDecode`: count 0 bits until a 1. -/
def riceUnary : Nat → Reader → Outcome (Nat × Reader)
  | 0, _ => .fail "out of fuel"
  | fuel + 1, r =>
    (readBits 1 r).bind fun b =>
      if b.1 = 0 then (riceUnary fuel b.2).map fun q => (q.1 + 1, q.2)
      else .ok (0, b.2)

/-- The per-sample loop of `riceDecode`: unary quotient, `M`-bit
remainder, zig-zag sign decode `int32(u>>1) ^ -int32(u&1)`. -/
def riceDecodeLoop (M : Nat) : Nat → Reader → Outcome (List Int × Reader)
  | 0, r => .ok ([], r)
  | n + 1, r =>
    (riceUnary (bitsLeft r + 1) r).bind fun q =>
    (readBits M q.2).bind fun u0 =>
      let u := u0.1 ||| (q.1 <<< M)
      let w := toInt32 (u >>> 1)
      let v := if u &&& 1 = 1 then -w - 1 else w
      (riceDecodeLoop M n u0.2).map fun vs => (v :: vs.1, vs.2)

/-- `riceDecode` from decode.go.  `make([]int32, n)` panics when the
requested length is negative. -/
def riceDecode (n : Int) (M : Nat) (r : Reader) : Outcome (List Int × Reader) :=
  if n < 0 then .panicked "makeslice: len out of range"
  else riceDecodeLoop M n.toNat r

/-- The partition-length computation inside `decodeResiduals`
(`n` for partition index `i`). -/
def partLen (blkSize predO : Int) (partO : Nat) (i : Nat) : Int :=
  if partO = 0 then blkSize - predO
  else if i > 0 then goDiv blkSize (2 ^ partO)
  else goDiv blkSize (2 ^ partO) - predO

/-- The partition loop of `decodeResiduals`: for each of the remaining
`cnt` partitions (current index `i`), read the Rice parameter, reject
the escape code with the source's `panic`, and append the decoded
partition. -/
def resLoop (bits : Nat) (blkSize predO : Int) (partO : Nat) :
    Nat → Nat → List Int → Reader → Outcome (List Int × Reader)
  | _, 0, acc, r => .ok (acc, r)
  | i, cnt + 1, acc, r =>
    (readBits bits r).bind fun M =>
      if (bits = 4 ∧ M.1 = 0xF) ∨ (bits = 5 ∧ M.1 = 0x1F) then
        .panicked "Unsupported, unencoded residuals"
      else
        (riceDecode (partLen blkSize predO partO i) M.1 M.2).bind fun p =>
          resLoop bits blkSize predO partO (i + 1) cnt (acc ++ p.1) p.2

/-- `decodeResiduals` from decode.go: 2-bit coding method, 4-bit
partition order, then `2^partO` Rice partitions. -/
def decodeResiduals (blkSize predO : Int) (r : Reader) :
    Outcome (List Int × Reader) :=
  (readBits 2 r).bind fun m =>
  ((if m.1 = 0 then .ok 4
    else if m.1 = 1 then .ok 5
    else .fail "Bad residual method" : Outcome Nat)).bind fun bits =>
  (readBits 4 m.2).bind fun po =>
    resLoop bits blkSize predO po.1 0 (2 ^ po.1) [] po.2

/-- The Rice partition order that `decodeResiduals` will read from a
given reader state: the 4 bits after the 2-bit coding method. -/
def resPartOrder (r : Reader) : Nat :=
  match readBits 2 r with
  | .ok m =>
    match readBits 4 m.2 with
    | .ok po => po.1
    | _ => 0
  | _ => 0

/-- `decodeFixedSubFrame` from decode.go. -/
def decodeFixedSubFrame (bps : Nat) (blkSize : Int) (predO : Nat)
    (r : Reader) : Outcome (List Int × Reader) :=
  (readInts predO bps r).bind fun warm =>
  (decodeResiduals blkSize (Int.ofNat predO) warm.2).bind fun res =>
    if predO = 0 then .ok (res.1, res.2)
    else .ok (predict (fixedCoeffs.getD predO []) warm.1 res.1 0, res.2)

/-- `decodeLPCSubFrame` from decode.go: warm-up samples, 4-bit
precision (15 is invalid), 5-bit signed quantization shift (negative is
a source `panic`), coefficients, residuals, prediction. -/
def decodeLPCSubFrame (bps : Nat) (blkSize : Int) (predO : Nat)
    (r : Reader) : Outcome (List Int × Reader) :=
  (readInts predO bps r).bind fun warm =>
  (readBits 4 warm.2).bind fun prec0 =>
  if prec0.1 = 0xF then .fail "Bad LPC predictor precision" else
  (readBits 5 prec0.2).bind fun s5 =>
    let shift := signExtend s5.1 5
    if shift < 0 then .panicked "What does a negative shift mean" else
    (readInts predO (prec0.1 + 1) s5.2).bind fun coeffs =>
    (decodeResiduals blkSize (Int.ofNat predO) coeffs.2).bind fun res =>
      .ok (predict coeffs.1 warm.1 res.1 shift.toNat, res.2)

/-- One iteration of the per-channel `switch` inside `Decoder.Next`:
subframe header, then constant / verbatim / fixed / LPC decoding.
(The verbatim branch's inline read-and-sign-extend loop is the same
operation as `readInts`.) -/
def decodeSubFrame (bps : Nat) (blkSize : Int) (r : Reader) :
    Outcome (List Int × Reader) :=
  (readSubFrameHeader r).bind fun kr =>
    match kr.1.1 with
    | .constant =>
      (readBits bps kr.2).bind fun v =>
        if blkSize < 0 then .panicked "makeslice: len out of range"
        else .ok (List.replicate blkSize.toNat (signExtend v.1 bps), v.2)
    | .verbatim =>
        if blkSize < 0 then .panicked "makeslice: len out of range"
        else readInts blkSize.toNat bps kr.2
    | .fixed => decodeFixedSubFrame bps blkSize kr.1.2 kr.2
    | .lpc => decodeLPCSubFrame bps blkSize kr.1.2 kr.2

/-- The `leftSide` case of `fixChannels`: `data[1][i] = data[0][i] -
data[1][i]` for every index of channel 0 (a Go index panic if channel 1
is shorter). -/
def fixLeftSide (d0 d1 : List Int) : Outcome (List Int) :=
  if d1.length < d0.length then .panicked "index out of range" else
  .ok (d0.zipWith sub32 d1 ++ d1.drop d0.length)

/-- The `rightSide` case of `fixChannels`: `data[0][i] += data[1][i]`
for every index of channel 1. -/
def fixRightSide (d0 d1 : List Int) : Outcome (List Int) :=
  if d0.length < d1.length then .panicked "index out of range" else
  .ok (d0.zipWith add32 d1 ++ d0.drop d1.length)

/-- The `midSide` case of `fixChannels`.  `mid *= 2` is an `int32`
multiply; `mid |= side & 1` ors the side channel's low bit into the
(now even) mid value, which adds that bit; the two divisions are Go's
truncated signed division by 2. -/
def fixMidSide (d0 d1 : List Int) : Outcome (List Int × List Int) :=
  if d1.length < d0.length then .panicked "index out of range" else
  let m2 := fun (m s : Int) => mul32 m 2 + s % 2
  .ok (d0.zipWith (fun m s => goDiv (add32 (m2 m s) s) 2) d1,
       d0.zipWith (fun m s => goDiv (sub32 (m2 m s) s) 2) d1 ++
         d1.drop d0.length)

/-- `fixChannels` from decode.go: invert left/side, right/side and
mid/side stereo decorrelation in place; all other assignments pass
through unchanged. -/
def fixChannels (assign : Nat) (data : List (List Int)) :
    Outcome (List (List Int)) :=
  if assign = 8 then
    match data with
    | d0 :: d1 :: rest => (fixLeftSide d0 d1).map fun d1' => d0 :: d1' :: rest
    | _ => .panicked "index out of range"
  else if assign = 9 then
    match data with
    | d0 :: d1 :: rest => (fixRightSide d0 d1).map fun d0' => d0' :: d1 :: rest
    | _ => .panicked "index out of range"
  else if assign = 10 then
    match data with
    | d0 :: d1 :: rest =>
      (fixMidSide d0 d1).map fun p => p.1 :: p.2 :: rest
    | _ => .panicked "index out of range"
  else .ok data

/-- The per-channel loop of `Decoder.Next`: decode `cnt` more
subframes starting at channel index `ch`. -/
def subFramesLoop (h : FrameHeader) : Nat → Nat → Reader →
    Outcome (List (List Int) × Reader)
  | _, 0, r => .ok ([], r)
  | ch, cnt + 1, r =>
    (decodeSubFrame (h.bitsPerSample ch) h.blockSize r).bind fun d =>
      (subFramesLoop h (ch + 1) cnt d.2).map fun ds => (d.1 :: ds.1, ds.2)

/-- `Decoder.Next` from decode.go: frame header, one subframe per
channel (through a fresh bit reader over the same tee), two raw CRC-16
bytes, CRC-16 verification over all teed bytes, channel fix-up.
Returns the per-channel samples and the unconsumed byte stream. -/
def next (info : StreamInfo) (s : List Nat) :
    Outcome (List (List Int) × List Nat) :=
  (readFrameHeader info (Reader.mk0 s)).bind fun hr =>
    let h := hr.1
    let r1 : Reader := ⟨[], hr.2.rest, hr.2.consumed⟩
    (subFramesLoop h 0 (nChannels h.channelAssignment) r1).bind fun dr =>
    (readBytesDirect 2 dr.2).bind fun cr =>
    (verifyCRC16 cr.2.consumed).bind fun _ =>
    (fixChannels h.channelAssignment dr.1).map fun data => (data, cr.2.rest)


/-- A concrete STREAMINFO used by the concrete frame-level inputs below
(8 bits per sample, 44.1 kHz, mono). -/
def infoEx : StreamInfo :=
  { MinBlock := 0, MaxBlock := 0, MinFrame := 0, MaxFrame := 0,
    SampleRate := 44100, NChannels := 1, BitsPerSample := 8,
    TotalSamples := 0, MD5 := List.replicate 16 0 }

/-- Modelled from the spec (§8, §4.8): the encoder-side stereo
transforms whose inversion `fixChannels` implements — the side channel
is `L - R`. -/
def sideEncode (L R : List Int) : List Int := L.zipWith sub32 R

/-- Modelled from the spec (§8, §4.8): the mid channel is
`(L + R) >> 1` in `int32` arithmetic. -/
def midEncode (L R : List Int) : List Int :=
  L.zipWith (fun a b => sar (add32 a b) 1) R

/-- The `int32` sum that `predict`'s inner loop accumulates over the
coefficients, reading `data` at indices `i - j - 1`. -/
def innerSum (data : List Int) (i : Nat) : List Int → Nat → Int → Int
  | [], _, sum => sum
  | c :: cs, j, sum =>
    innerSum data i cs (j + 1) (add32 sum (mul32 c (data.getD (i - j - 1) 0)))

/-- C1.  The claim fails on the code: `readSubFrameHeader` consumes the
wasted-bits prefix but discards the count, and `Next` decodes the
CONSTANT subframe at the full sample width and never left-shifts.  On
the subframe bit stream `0 000000 1 1 00000001` (padding 0, CONSTANT,
wasted-bits flag 1 with w = 1, then the 8-bit value 1) the code emits
the sample 1 for the whole block, where the claim requires
`v << w = 2`. -/
theorem c1_wasted_bits_ignored :
    decodeSubFrame 8 3
      ⟨[false, false, false, false, false, false, false, true, true,
        false, false, false, false, false, false, false, true], [], []⟩ =
      .ok ([1, 1, 1], ⟨[], [], []⟩) ∧ (1 : Int) ≠ 2 := by
  exact ⟨by decide, by decide⟩

/-- C2.  The claim fails on the code: the `sampleRates` table entry for
code 6 is the literal 220500 (not 22050), and a sample-rate code of 15
falls into the table's `-1` sentinel with no error at all.  The
concrete frame header `FF F9 1F 02 00 53` (block-size code 1,
sample-rate code 15, valid CRC-8) parses successfully with sample rate
`-1`. -/
theorem c2_sample_rate_bug :
    sampleRates.getD 6 0 = 220500 ∧ (220500 : Int) ≠ 22050 ∧
    readFrameHeader infoEx (Reader.mk0 [0xFF, 0xF9, 0x1F, 0x02, 0x00, 83]) =
      .ok ({ variableSize := true, blockSize := 192, sampleRate := -1,
             channelAssignment := 0, sampleSize := 8, number := 0,
             crc8 := 83 },
           ⟨[], [], [255, 249, 31, 2, 0, 83]⟩) := by
  exact ⟨by decide, by decide, by decide⟩

/-- C3.  The claim fails on the code: the `blockSizes` table entry for
code 15 is the literal 23768, not 32768.  The concrete frame header
`FF F9 F1 02 00 B1` (block-size code 15, sample-rate code 1, valid
CRC-8) parses successfully with block size 23768. -/
theorem c3_block_size_code_15_bug :
    blockSizes.getD 15 0 = 23768 ∧ (23768 : Int) ≠ 32768 ∧
    readFrameHeader infoEx (Reader.mk0 [0xFF, 0xF9, 0xF1, 0x02, 0x00, 177]) =
      .ok ({ variableSize := true, blockSize := 23768, sampleRate := 88200,
             channelAssignment := 0, sampleSize := 8, number := 0,
             crc8 := 177 },
           ⟨[], [], [255, 249, 241, 2, 0, 177]⟩) := by
  exact ⟨by decide, by decide, by decide⟩

/-- C4.  The claim fails on the code: `NewDecoder` on the 8-byte input
`fLaC` followed by a last-metadata-block header of type VORBIS_COMMENT
with length 0 reaches `vorbisString` with an empty slice, and
`binary.LittleEndian.Uint32` panics (index out of range) instead of
returning an error. -/
theorem c4_new_decoder_panics :
    newDecoder [102, 76, 97, 67, 0x84, 0, 0, 0] =
      .panicked "index out of range" := by
  decide

/-- C5 counterexample.  A successful `Next` whose single channel buffer
is shorter than the frame's block size: block size 3 (code 6, tail 2),
one FIXED order-0 subframe with Rice partition order P = 1, so the two
partitions hold `3/2 = 1` residual each and only 2 samples are
produced.  Both CRCs are valid and `Next` returns without error. -/
theorem c5_short_buffer :
    next infoEx [0xFF, 0xF8, 0x69, 0x02, 0x00, 0x02, 148,
                 0x10, 0x04, 0x21, 0x07, 0xCD] = .ok ([[0, 0]], []) ∧
    (readFrameHeader infoEx
        (Reader.mk0 [0xFF, 0xF8, 0x69, 0x02, 0x00, 0x02, 148,
                     0x10, 0x04, 0x21, 0x07, 0xCD])).map
        (fun hr => hr.1.blockSize) = .ok 3 ∧
    ([0, 0] : List Int).length ≠ (3 : Int).toNat := by
  exact ⟨by decide, by decide, by decide⟩

/-- C6 counterexample.  The predictor's accumulator is a Go `int32`,
not a ≥64-bit intermediate: with C = [8192], W = [262144], R = [0],
s = 0 the true sum is `8192 · 262144 = 2^31`, which overflows `int32`
to `-2^31`, so the produced sample is `-2147483648` where the claimed
exact arithmetic gives `0 + (2^31 >> 0) = 2147483648`. -/
theorem c6_predict_overflow :
    predict [8192] [262144] [0] 0 = [262144, -2147483648] ∧
    (-2147483648 : Int) ≠ 0 + ((8192 * 262144 : Int) >>> (0 : Nat)) := by
  exact ⟨by decide, by decide⟩

/-- C7 counterexample.  `readStreamInfo` never checks the bits-per-
sample field: a stream whose STREAMINFO encodes bits-per-sample 1
(stored field 0) is accepted by `NewDecoder`, violating
`bits_per_sample ∈ [4, 32]`. -/
theorem c7_small_bits_per_sample :
    newDecoder ([102, 76, 97, 67, 0x80, 0, 0, 34] ++
      [0, 0, 0, 0, 0, 0, 0, 0, 0, 0, 0, 0, 0x10, 0, 0, 0, 0, 0] ++
      List.replicate 16 0) =
      .ok ({ streamInfo := some
               { MinBlock := 0, MaxBlock := 0, MinFrame := 0, MaxFrame := 0,
                 SampleRate := 1, NChannels := 1, BitsPerSample := 1,
                 TotalSamples := 0, MD5 := List.replicate 16 0 },
             vorbis := none }, []) ∧
    ¬ (4 ≤ (1 : Nat)) := by
  exact ⟨by decide, by decide⟩

/-- C8 counterexample.  `utf8Decode` recognizes at most 6-byte
sequences; the 7-byte encoding of `2^31` begins with the lead byte
`0xFE`, which matches none of the decoder's patterns, so decoding
returns 0 (consuming one byte) instead of `2^31`. -/
theorem c8_seven_byte_decode :
    utf8Encode (2 ^ 31) = [254, 130, 128, 128, 128, 128, 128] ∧
    utf8Decode (Reader.mk0 (utf8Encode (2 ^ 31))) =
      .ok (0, ⟨[], [130, 128, 128, 128, 128, 128], [254]⟩) ∧
    (0 : Nat) ≠ 2 ^ 31 := by
  exact ⟨by decide, by decide, by decide⟩

/-- C9 counterexample.  The right/side fix-up adds the side channel to
channel 0, so it inverts the encoding `side = L - R`; on the claim's
encoding `side = R - L` it does not recover (L, R): with L = [0],
R = [1] the fix-up applied to `[R - L, R] = [[1], [1]]` yields
`[[2], [1]] ≠ [[0], [1]]`. -/
theorem c9_right_side_as_stated :
    fixChannels 9 [[sub32 1 0], [1]] = .ok [[2], [1]] ∧
    ([[2], [1]] : List (List Int)) ≠ [[0], [1]] := by
  exact ⟨by decide, by decide⟩

/-- Reading 8 bits from a byte-aligned reader pulls exactly the next
byte. -/
lemma readBits8_cons (b : Nat) (rest cons : List Nat) :
    readBits 8 ⟨[], b :: rest, cons⟩ =
      .ok (natOfBits (bitsOfByte b), ⟨[], rest, cons ++ [b]⟩) := by
  unfold readBits
  simp [bitsOfByte]

/-- A byte's bit string evaluates back to the byte. -/
lemma natOfBits_bitsOfByte : ∀ b < 256, natOfBits (bitsOfByte b) = b := by
  decide

/-- A lead byte matching none of the six recognized patterns makes
`utf8Decode` fall through with `left = 0, v = 0`. -/
lemma utf8Decode_fallthrough (b0 : Nat) (rest : List Nat) (h256 : b0 < 256)
    (h1 : ¬ b0 &&& 0x80 = 0) (h2 : ¬ b0 &&& 0xE0 = 0xC0)
    (h3 : ¬ b0 &&& 0xF0 = 0xE0) (h4 : ¬ b0 &&& 0xF8 = 0xF0)
    (h5 : ¬ b0 &&& 0xFC = 0xF8) (h6 : ¬ b0 &&& 0xFE = 0xFC) :
    utf8Decode ⟨[], b0 :: rest, []⟩ = .ok (0, ⟨[], rest, [b0]⟩) := by
  unfold utf8Decode
  rw [readBits8_cons, natOfBits_bitsOfByte _ h256]
  simp only [Outcome.bind]
  rw [if_neg h1, if_neg h2, if_neg h3, if_neg h4, if_neg h5, if_neg h6]
  rfl

/-- Continuation bytes and `0xFE`/`0xFF` in lead position match none of
the recognized patterns. -/
lemma unrecognizedMasks :
    ∀ b0 < 256, ((0x80 ≤ b0 ∧ b0 ≤ 0xBF) ∨ b0 = 0xFE ∨ b0 = 0xFF) →
      ¬ b0 &&& 0x80 = 0 ∧ ¬ b0 &&& 0xE0 = 0xC0 ∧ ¬ b0 &&& 0xF0 = 0xE0 ∧
      ¬ b0 &&& 0xF8 = 0xF0 ∧ ¬ b0 &&& 0xFC = 0xF8 ∧ ¬ b0 &&& 0xFE = 0xFC := by
  decide

/-- C10.  Any lead byte that matches none of `utf8Decode`'s patterns —
a continuation byte `0x80..0xBF` in lead position, or `0xFE`/`0xFF` —
falls through the Go `switch` with `left = 0, v = 0`: exactly one byte
is consumed and the value 0 is returned with a nil error. -/
theorem c10_unrecognized_lead_byte (b0 : Nat) (rest : List Nat)
    (h : (0x80 ≤ b0 ∧ b0 ≤ 0xBF) ∨ b0 = 0xFE ∨ b0 = 0xFF) :
    utf8Decode ⟨[], b0 :: rest, []⟩ = .ok (0, ⟨[], rest, [b0]⟩) := by
  have h256 : b0 < 256 := by rcases h with ⟨h1, h2⟩ | h | h <;> omega
  obtain ⟨m1, m2, m3, m4, m5, m6⟩ := unrecognizedMasks b0 h256 h
  exact utf8Decode_fallthrough b0 rest h256 m1 m2 m3 m4 m5 m6

/-- Witness for C10 at the concrete lead byte `0xBE`. -/
theorem c10_unrecognized_lead_byte_witness :
    utf8Decode ⟨[], [0xBE, 7], []⟩ = .ok (0, ⟨[], [7], [0xBE]⟩) :=
  c10_unrecognized_lead_byte 0xBE [7] (Or.inl ⟨by decide, by decide⟩)

/-- A continuation read from a byte-aligned reader. -/
lemma utf8Cont_cons (left v b : Nat) (rest cons : List Nat) (hb : b < 256) :
    utf8Cont (left + 1) v ⟨[], b :: rest, cons⟩ =
      if b &&& 0xC0 ≠ 0x80 then .fail "Bad UTF-8 encoding in frame header"
      else utf8Cont left ((v <<< 6) ||| (b &&& 0x3F)) ⟨[], rest, cons ++ [b]⟩ := by
  simp only [utf8Cont]
  rw [readBits8_cons, natOfBits_bitsOfByte _ hb]
  rfl

/-- Shifting six bits up and or-ing in a 6-bit value is base-64
digit composition. -/
lemma shiftOr6 (a r : Nat) (hr : r < 64) : (a <<< 6) ||| r = 64 * a + r := by
  have h := Nat.mul_add_lt_is_or (b := r) (i := 6) (by simpa using hr) a
  rw [Nat.shiftLeft_eq]
  norm_num at h ⊢
  rw [Nat.mul_comm]
  exact h.symm

/-- Mask facts about continuation bytes. -/
lemma contF : ∀ r < 64, ¬ ((0x80 + r) &&& 0xC0 ≠ 0x80) ∧ (0x80 + r) &&& 0x3F = r := by
  decide

lemma lead1F : ∀ v < 128, v &&& 0x80 = 0 ∧ v &&& 0x7F = v := by decide

lemma lead2F : ∀ q < 32, ¬ (0xC0 + q) &&& 0x80 = 0 ∧ (0xC0 + q) &&& 0xE0 = 0xC0 ∧
    (0xC0 + q) &&& 0x1F = q := by decide

lemma lead3F : ∀ q < 16, ¬ (0xE0 + q) &&& 0x80 = 0 ∧ ¬ (0xE0 + q) &&& 0xE0 = 0xC0 ∧
    (0xE0 + q) &&& 0xF0 = 0xE0 ∧ (0xE0 + q) &&& 0xF = q := by decide

lemma lead4F : ∀ q < 8, ¬ (0xF0 + q) &&& 0x80 = 0 ∧ ¬ (0xF0 + q) &&& 0xE0 = 0xC0 ∧
    ¬ (0xF0 + q) &&& 0xF0 = 0xE0 ∧ (0xF0 + q) &&& 0xF8 = 0xF0 ∧
    (0xF0 + q) &&& 0x7 = q := by decide

lemma lead5F : ∀ q < 4, ¬ (0xF8 + q) &&& 0x80 = 0 ∧ ¬ (0xF8 + q) &&& 0xE0 = 0xC0 ∧
    ¬ (0xF8 + q) &&& 0xF0 = 0xE0 ∧ ¬ (0xF8 + q) &&& 0xF8 = 0xF0 ∧
    (0xF8 + q) &&& 0xFC = 0xF8 ∧ (0xF8 + q) &&& 0x3 = q := by decide

lemma lead6F : ∀ q < 2, ¬ (0xFC + q) &&& 0x80 = 0 ∧ ¬ (0xFC + q) &&& 0xE0 = 0xC0 ∧
    ¬ (0xFC + q) &&& 0xF0 = 0xE0 ∧ ¬ (0xFC + q) &&& 0xF8 = 0xF0 ∧
    ¬ (0xFC + q) &&& 0xFC = 0xF8 ∧ (0xFC + q) &&& 0xFE = 0xFC ∧
    (0xFC + q) &&& 0x1 = q := by decide

lemma utf8_rt1 (v : Nat) (h : v ≤ 0x7F) :
    utf8Decode ⟨[], [v], []⟩ = .ok (v, ⟨[], [], [v]⟩) := by
  obtain ⟨m1, m2⟩ := lead1F v (by omega)
  unfold utf8Decode
  rw [readBits8_cons, natOfBits_bitsOfByte _ (by omega)]
  simp only [Outcome.bind]
  rw [if_pos m1, m2]
  rfl

lemma utf8_rt2 (v : Nat) (h : v ≤ 0x7FF) :
    utf8Decode ⟨[], [0xC0 + v / 64, 0x80 + v % 64], []⟩ =
      .ok (v, ⟨[], [], [0xC0 + v / 64, 0x80 + v % 64]⟩) := by
  obtain ⟨m1, m2, m3⟩ := lead2F (v / 64) (by omega)
  obtain ⟨c1, c2⟩ := contF (v % 64) (by omega)
  unfold utf8Decode
  rw [readBits8_cons, natOfBits_bitsOfByte _ (by omega)]
  simp only [Outcome.bind]
  rw [if_neg m1, if_pos m2, m3]
  rw [utf8Cont_cons _ _ _ _ _ (by omega), if_neg c1, c2, shiftOr6 _ _ (by omega)]
  show Outcome.ok _ = _
  have hv : 64 * (v / 64) + v % 64 = v := by omega
  rw [hv]
  rfl

lemma utf8_rt3 (v : Nat) (h : v ≤ 0xFFFF) :
    utf8Decode ⟨[], [0xE0 + v / 4096, 0x80 + v / 64 % 64, 0x80 + v % 64], []⟩ =
      .ok (v, ⟨[], [], [0xE0 + v / 4096, 0x80 + v / 64 % 64, 0x80 + v % 64]⟩) := by
  obtain ⟨m1, m2, m3, m4⟩ := lead3F (v / 4096) (by omega)
  obtain ⟨c1, c2⟩ := contF (v / 64 % 64) (by omega)
  obtain ⟨d1, d2⟩ := contF (v % 64) (by omega)
  unfold utf8Decode
  rw [readBits8_cons, natOfBits_bitsOfByte _ (by omega)]
  simp only [Outcome.bind]
  rw [if_neg m1, if_neg m2, if_pos m3, m4]
  rw [utf8Cont_cons _ _ _ _ _ (by omega), if_neg c1, c2, shiftOr6 _ _ (by omega)]
  rw [utf8Cont_cons _ _ _ _ _ (by omega), if_neg d1, d2, shiftOr6 _ _ (by omega)]
  show Outcome.ok _ = _
  have hv : 64 * (64 * (v / 4096) + v / 64 % 64) + v % 64 = v := by omega
  rw [hv]
  rfl

lemma utf8_rt4 (v : Nat) (h : v ≤ 0x1FFFFF) :
    utf8Decode ⟨[], [0xF0 + v / 262144, 0x80 + v / 4096 % 64,
      0x80 + v / 64 % 64, 0x80 + v % 64], []⟩ =
      .ok (v, ⟨[], [], [0xF0 + v / 262144, 0x80 + v / 4096 % 64,
        0x80 + v / 64 % 64, 0x80 + v % 64]⟩) := by
  obtain ⟨m1, m2, m3, m4, m5⟩ := lead4F (v / 262144) (by omega)
  obtain ⟨c1, c2⟩ := contF (v / 4096 % 64) (by omega)
  obtain ⟨d1, d2⟩ := contF (v / 64 % 64) (by omega)
  obtain ⟨e1, e2⟩ := contF (v % 64) (by omega)
  unfold utf8Decode
  rw [readBits8_cons, natOfBits_bitsOfByte _ (by omega)]
  simp only [Outcome.bind]
  rw [if_neg m1, if_neg m2, if_neg m3, if_pos m4, m5]
  rw [utf8Cont_cons _ _ _ _ _ (by omega), if_neg c1, c2, shiftOr6 _ _ (by omega)]
  rw [utf8Cont_cons _ _ _ _ _ (by omega), if_neg d1, d2, shiftOr6 _ _ (by omega)]
  rw [utf8Cont_cons _ _ _ _ _ (by omega), if_neg e1, e2, shiftOr6 _ _ (by omega)]
  show Outcome.ok _ = _
  have hv : 64 * (64 * (64 * (v / 262144) + v / 4096 % 64) + v / 64 % 64) +
      v % 64 = v := by omega
  rw [hv]
  rfl

lemma utf8_rt5 (v : Nat) (h : v ≤ 0x3FFFFFF) :
    utf8Decode ⟨[], [0xF8 + v / 16777216, 0x80 + v / 262144 % 64,
      0x80 + v / 4096 % 64, 0x80 + v / 64 % 64, 0x80 + v % 64], []⟩ =
      .ok (v, ⟨[], [], [0xF8 + v / 16777216, 0x80 + v / 262144 % 64,
        0x80 + v / 4096 % 64, 0x80 + v / 64 % 64, 0x80 + v % 64]⟩) := by
  obtain ⟨m1, m2, m3, m4, m5, m6⟩ := lead5F (v / 16777216) (by omega)
  obtain ⟨c1, c2⟩ := contF (v / 262144 % 64) (by omega)
  obtain ⟨d1, d2⟩ := contF (v / 4096 % 64) (by omega)
  obtain ⟨e1, e2⟩ := contF (v / 64 % 64) (by omega)
  obtain ⟨f1, f2⟩ := contF (v % 64) (by omega)
  unfold utf8Decode
  rw [readBits8_cons, natOfBits_bitsOfByte _ (by omega)]
  simp only [Outcome.bind]
  rw [if_neg m1, if_neg m2, if_neg m3, if_neg m4, if_pos m5, m6]
  rw [utf8Cont_cons _ _ _ _ _ (by omega), if_neg c1, c2, shiftOr6 _ _ (by omega)]
  rw [utf8Cont_cons _ _ _ _ _ (by omega), if_neg d1, d2, shiftOr6 _ _ (by omega)]
  rw [utf8Cont_cons _ _ _ _ _ (by omega), if_neg e1, e2, shiftOr6 _ _ (by omega)]
  rw [utf8Cont_cons _ _ _ _ _ (by omega), if_neg f1, f2, shiftOr6 _ _ (by omega)]
  show Outcome.ok _ = _
  have hv : 64 * (64 * (64 * (64 * (v / 16777216) + v / 262144 % 64) +
      v / 4096 % 64) + v / 64 % 64) + v % 64 = v := by omega
  rw [hv]
  rfl

lemma utf8_rt6 (v : Nat) (h : v ≤ 0x7FFFFFFF) :
    utf8Decode ⟨[], [0xFC + v / 1073741824, 0x80 + v / 16777216 % 64,
      0x80 + v / 262144 % 64, 0x80 + v / 4096 % 64, 0x80 + v / 64 % 64,
      0x80 + v % 64], []⟩ =
      .ok (v, ⟨[], [], [0xFC + v / 1073741824, 0x80 + v / 16777216 % 64,
        0x80 + v / 262144 % 64, 0x80 + v / 4096 % 64, 0x80 + v / 64 % 64,
        0x80 + v % 64]⟩) := by
  obtain ⟨m1, m2, m3, m4, m5, m6, m7⟩ := lead6F (v / 1073741824) (by omega)
  obtain ⟨c1, c2⟩ := contF (v / 16777216 % 64) (by omega)
  obtain ⟨d1, d2⟩ := contF (v / 262144 % 64) (by omega)
  obtain ⟨e1, e2⟩ := contF (v / 4096 % 64) (by omega)
  obtain ⟨f1, f2⟩ := contF (v / 64 % 64) (by omega)
  obtain ⟨g1, g2⟩ := contF (v % 64) (by omega)
  unfold utf8Decode
  rw [readBits8_cons, natOfBits_bitsOfByte _ (by omega)]
  simp only [Outcome.bind]
  rw [if_neg m1, if_neg m2, if_neg m3, if_neg m4, if_neg m5, if_pos m6, m7]
  rw [utf8Cont_cons _ _ _ _ _ (by omega), if_neg c1, c2, shiftOr6 _ _ (by omega)]
  rw [utf8Cont_cons _ _ _ _ _ (by omega), if_neg d1, d2, shiftOr6 _ _ (by omega)]
  rw [utf8Cont_cons _ _ _ _ _ (by omega), if_neg e1, e2, shiftOr6 _ _ (by omega)]
  rw [utf8Cont_cons _ _ _ _ _ (by omega), if_neg f1, f2, shiftOr6 _ _ (by omega)]
  rw [utf8Cont_cons _ _ _ _ _ (by omega), if_neg g1, g2, shiftOr6 _ _ (by omega)]
  show Outcome.ok _ = _
  have hv : 64 * (64 * (64 * (64 * (64 * (v / 1073741824) +
      v / 16777216 % 64) + v / 262144 % 64) + v / 4096 % 64) + v / 64 % 64) +
      v % 64 = v := by omega
  rw [hv]
  rfl

/-- C8 (amended).  Decoding the extended-UTF-8 encoding of `v` returns
`v` for every `v ≤ 2^31 - 1` (the values whose shortest encoding is at
most 6 bytes, the longest form `utf8Decode` recognizes). -/
theorem c8_utf8_round_trip_amended (v : Nat) (h : v ≤ 2 ^ 31 - 1) :
    utf8Decode (Reader.mk0 (utf8Encode v)) = .ok (v, ⟨[], [], utf8Encode v⟩) := by
  unfold utf8Encode Reader.mk0
  split_ifs with h1 h2 h3 h4 h5 h6
  · exact utf8_rt1 v h1
  · exact utf8_rt2 v h2
  · exact utf8_rt3 v h3
  · exact utf8_rt4 v h4
  · exact utf8_rt5 v h5
  · exact utf8_rt6 v h6
  · omega

/-- Witness for C8 (amended) at `v = 0x24B62`. -/
theorem c8_utf8_round_trip_amended_witness :
    utf8Decode (Reader.mk0 (utf8Encode 0x24B62)) =
      .ok (0x24B62, ⟨[], [], utf8Encode 0x24B62⟩) :=
  c8_utf8_round_trip_amended 0x24B62 (by decide)

lemma ls_point (a b : Int) (hb1 : -2 ^ 31 ≤ b) (hb2 : b < 2 ^ 31) :
    sub32 a (sub32 a b) = b := by
  unfold sub32 wrap32
  omega

lemma rs_point (a b : Int) (ha1 : -2 ^ 31 ≤ a) (ha2 : a < 2 ^ 31) :
    add32 (sub32 a b) b = a := by
  unfold add32 sub32 wrap32
  omega

lemma ms_point (a b : Int) (ha1 : -2 ^ 30 ≤ a) (ha2 : a < 2 ^ 30)
    (hb1 : -2 ^ 30 ≤ b) (hb2 : b < 2 ^ 30) :
    goDiv (add32 (mul32 (sar (add32 a b) 1) 2 + sub32 a b % 2) (sub32 a b)) 2
        = a ∧
    goDiv (sub32 (mul32 (sar (add32 a b) 1) 2 + sub32 a b % 2) (sub32 a b)) 2
        = b := by
  have hsar : sar (add32 a b) 1 = wrap32 (a + b) / 2 := by
    unfold sar add32
    rw [Int.shiftRight_eq_div_pow]
    norm_num
  have h1 : add32 (mul32 (sar (add32 a b) 1) 2 + sub32 a b % 2) (sub32 a b) =
      2 * a := by
    rw [hsar]; unfold add32 mul32 sub32 wrap32; omega
  have h2 : sub32 (mul32 (sar (add32 a b) 1) 2 + sub32 a b % 2) (sub32 a b) =
      2 * b := by
    rw [hsar]; unfold sub32 mul32 wrap32; omega
  rw [h1, h2]
  unfold goDiv
  exact ⟨Int.mul_tdiv_cancel_left a (by norm_num),
         Int.mul_tdiv_cancel_left b (by norm_num)⟩

lemma ls_list : ∀ L R : List Int, R.length = L.length →
    (∀ x ∈ R, -2 ^ 31 ≤ x ∧ x < 2 ^ 31) →
    L.zipWith sub32 (L.zipWith sub32 R) = R := by
  intro L
  induction L with
  | nil => intro R h _; cases R <;> simp_all
  | cons a L ih =>
    intro R h hb
    cases R with
    | nil => simp at h
    | cons b R =>
      simp only [List.zipWith_cons_cons, List.cons.injEq]
      refine ⟨ls_point a b (hb b (by simp)).1 (hb b (by simp)).2, ?_⟩
      exact ih R (by simpa using h) (fun x hx => hb x (by simp [hx]))

lemma rs_list : ∀ L R : List Int, R.length = L.length →
    (∀ x ∈ L, -2 ^ 31 ≤ x ∧ x < 2 ^ 31) →
    (L.zipWith sub32 R).zipWith add32 R = L := by
  intro L
  induction L with
  | nil => intro R h _; simp
  | cons a L ih =>
    intro R h ha
    cases R with
    | nil => simp at h
    | cons b R =>
      simp only [List.zipWith_cons_cons, List.cons.injEq]
      refine ⟨rs_point a b (ha a (by simp)).1 (ha a (by simp)).2, ?_⟩
      exact ih R (by simpa using h) (fun x hx => ha x (by simp [hx]))

lemma ms_list1 : ∀ L R : List Int, R.length = L.length →
    (∀ x ∈ L, -2 ^ 30 ≤ x ∧ x < 2 ^ 30) →
    (∀ x ∈ R, -2 ^ 30 ≤ x ∧ x < 2 ^ 30) →
    (midEncode L R).zipWith
      (fun m s => goDiv (add32 (mul32 m 2 + s % 2) s) 2) (sideEncode L R) = L := by
  intro L
  induction L with
  | nil => intro R h _ _; simp [midEncode, sideEncode]
  | cons a L ih =>
    intro R h ha hb
    cases R with
    | nil => simp at h
    | cons b R =>
      simp only [midEncode, sideEncode, List.zipWith_cons_cons,
        List.cons.injEq] at ih ⊢
      refine ⟨(ms_point a b (ha a (by simp)).1 (ha a (by simp)).2
        (hb b (by simp)).1 (hb b (by simp)).2).1, ?_⟩
      exact ih R (by simpa using h) (fun x hx => ha x (by simp [hx]))
        (fun x hx => hb x (by simp [hx]))

lemma ms_list2 : ∀ L R : List Int, R.length = L.length →
    (∀ x ∈ L, -2 ^ 30 ≤ x ∧ x < 2 ^ 30) →
    (∀ x ∈ R, -2 ^ 30 ≤ x ∧ x < 2 ^ 30) →
    (midEncode L R).zipWith
      (fun m s => goDiv (sub32 (mul32 m 2 + s % 2) s) 2) (sideEncode L R) = R := by
  intro L
  induction L with
  | nil => intro R h _ _; cases R <;> simp_all [midEncode, sideEncode]
  | cons a L ih =>
    intro R h ha hb
    cases R with
    | nil => simp at h
    | cons b R =>
      simp only [midEncode, sideEncode, List.zipWith_cons_cons,
        List.cons.injEq] at ih ⊢
      refine ⟨(ms_point a b (ha a (by simp)).1 (ha a (by simp)).2
        (hb b (by simp)).1 (hb b (by simp)).2).2, ?_⟩
      exact ih R (by simpa using h) (fun x hx => ha x (by simp [hx]))
        (fun x hx => hb x (by simp [hx]))

/-- C9 (amended).  `fixChannels` inverts the three stereo encodings in
`int32` wrapping semantics: left/side with side = L−R in channel 1;
right/side with side = L−R in channel 0 (the claim's R−L is backwards);
mid/side with mid = (L+R)>>1 and side = L−R, for samples within
[−2^30, 2^30−1] so the doubled intermediates do not overflow. -/
theorem c9_decorrelation_amended :
    (∀ L R : List Int, R.length = L.length →
       (∀ x ∈ R, -2 ^ 31 ≤ x ∧ x < 2 ^ 31) →
       fixChannels 8 [L, sideEncode L R] = .ok [L, R]) ∧
    (∀ L R : List Int, R.length = L.length →
       (∀ x ∈ L, -2 ^ 31 ≤ x ∧ x < 2 ^ 31) →
       fixChannels 9 [sideEncode L R, R] = .ok [L, R]) ∧
    (∀ L R : List Int, R.length = L.length →
       (∀ x ∈ L, -2 ^ 30 ≤ x ∧ x < 2 ^ 30) →
       (∀ x ∈ R, -2 ^ 30 ≤ x ∧ x < 2 ^ 30) →
       fixChannels 10 [midEncode L R, sideEncode L R] = .ok [L, R]) := by
  have hsl : ∀ L R : List Int, R.length = L.length →
      (sideEncode L R).length = L.length := by
    intro L R h; simp [sideEncode, h]
  have hml : ∀ L R : List Int, R.length = L.length →
      (midEncode L R).length = L.length := by
    intro L R h; simp [midEncode, h]
  refine ⟨?_, ?_, ?_⟩
  · intro L R hlen hb
    have e : fixChannels 8 [L, sideEncode L R] =
        (fixLeftSide L (sideEncode L R)).map (fun d1' => [L, d1']) := rfl
    rw [e]
    unfold fixLeftSide
    rw [if_neg (by rw [hsl L R hlen]; omega)]
    have hd : (sideEncode L R).drop L.length = [] := by
      rw [← hsl L R hlen]; exact List.drop_length _
    simp only [Outcome.map, sideEncode] at *
    rw [ls_list L R hlen hb, hd, List.append_nil]
  · intro L R hlen ha
    have e : fixChannels 9 [sideEncode L R, R] =
        (fixRightSide (sideEncode L R) R).map (fun d0' => [d0', R]) := rfl
    rw [e]
    unfold fixRightSide
    rw [if_neg (by rw [hsl L R hlen, ← hlen]; omega)]
    have hd : (sideEncode L R).drop R.length = [] := by
      have h2 : R.length = (sideEncode L R).length := by
        rw [hsl L R hlen]; exact hlen
      rw [h2]; exact List.drop_length _
    simp only [Outcome.map, sideEncode] at *
    rw [rs_list L R hlen ha, hd, List.append_nil]
  · intro L R hlen ha hb
    have e : fixChannels 10 [midEncode L R, sideEncode L R] =
        (fixMidSide (midEncode L R) (sideEncode L R)).map
          (fun p => [p.1, p.2]) := rfl
    rw [e]
    unfold fixMidSide
    rw [if_neg (by rw [hsl L R hlen, hml L R hlen]; omega)]
    have hd : (sideEncode L R).drop (midEncode L R).length = [] := by
      have h3 : (midEncode L R).length = (sideEncode L R).length := by
        rw [hml L R hlen, hsl L R hlen]
      rw [h3]; exact List.drop_length _
    simp only [Outcome.map]
    rw [ms_list1 L R hlen ha hb, ms_list2 L R hlen ha hb, hd, List.append_nil]

/-- Witness for C9 (amended) at concrete stereo frames. -/
theorem c9_decorrelation_amended_witness :
    fixChannels 8 [[5, -3], sideEncode [5, -3] [3, -12]] =
      .ok [[5, -3], [3, -12]] ∧
    fixChannels 9 [sideEncode [4] [7], [7]] = .ok [[4], [7]] ∧
    fixChannels 10 [midEncode [4, -5] [2, 6], sideEncode [4, -5] [2, 6]] =
      .ok [[4, -5], [2, 6]] :=
  ⟨c9_decorrelation_amended.1 [5, -3] [3, -12] (by decide) (by decide),
   c9_decorrelation_amended.2.1 [4] [7] (by decide) (by decide),
   c9_decorrelation_amended.2.2 [4, -5] [2, 6] (by decide) (by decide)
     (by decide)⟩

lemma innerSum_congr (d1 d2 : List Int) (i : Nat) (h1 : 1 ≤ i)
    (h : ∀ k, k < i → d1.getD k 0 = d2.getD k 0) :
    ∀ cs j sum, innerSum d1 i cs j sum = innerSum d2 i cs j sum := by
  intro cs
  induction cs with
  | nil => intro j sum; rfl
  | cons c cs ih =>
    intro j sum
    simp only [innerSum]
    rw [h (i - j - 1) (by omega), ih]

lemma getD_set_ne (l : List Int) (i k : Nat) (v : Int) (h : i ≠ k) :
    (l.set i v).getD k 0 = l.getD k 0 := by
  simp [List.getD_eq_getElem?_getD, List.getElem?_set_ne h]

lemma getD_set_self (l : List Int) (i : Nat) (v : Int) (h : i < l.length) :
    (l.set i v).getD i 0 = v := by
  simp [List.getD_eq_getElem?_getD, List.getElem?_set_self, h]

lemma predictInner_set (residual : List Int) (shift p i : Nat) (hi : 1 ≤ i) :
    ∀ (coeffs : List Int) (j : Nat) (sum : Int) (data : List Int),
      coeffs ≠ [] →
      predictInner residual shift p i coeffs j sum data =
        data.set i (add32 (residual.getD (i - p) 0)
          (sar (innerSum data i coeffs j sum) shift)) := by
  intro coeffs
  induction coeffs with
  | nil => intro _ _ _ hne; exact absurd rfl hne
  | cons c cs ih =>
    intro j sum data _
    cases cs with
    | nil => simp [predictInner, innerSum]
    | cons c' cs' =>
      rw [show predictInner residual shift p i (c :: c' :: cs') j sum data =
          predictInner residual shift p i (c' :: cs') (j + 1)
            (add32 sum (mul32 c (data.getD (i - j - 1) 0)))
            (data.set i (add32 (residual.getD (i - p) 0)
              (sar (add32 sum (mul32 c (data.getD (i - j - 1) 0))) shift)))
          from rfl]
      rw [ih (j + 1) _ _ (by simp)]
      rw [List.set_set]
      congr 1
      rw [innerSum_congr _ data i hi
        (fun k hk => getD_set_ne _ _ _ _ (by omega))]
      rfl

lemma predictLoop_spec (coeffs residual : List Int) (shift p : Nat)
    (hc : coeffs ≠ []) (hp : 1 ≤ p) :
    ∀ (cnt i : Nat) (data : List Int), p ≤ i → i + cnt = data.length →
      (predictLoop coeffs residual shift p i cnt data).length = data.length ∧
      (∀ k, k < i →
        (predictLoop coeffs residual shift p i cnt data).getD k 0 =
          data.getD k 0) ∧
      (∀ k, i ≤ k → k < data.length →
        (predictLoop coeffs residual shift p i cnt data).getD k 0 =
          add32 (residual.getD (k - p) 0)
            (sar (innerSum (predictLoop coeffs residual shift p i cnt data)
              k coeffs 0 0) shift)) := by
  intro cnt
  induction cnt with
  | zero =>
    intro i data hpi hlen
    refine ⟨rfl, fun k _ => rfl, fun k hk1 hk2 => ?_⟩
    omega
  | succ cnt ih =>
    intro i data hpi hlen
    have hi1 : 1 ≤ i := le_trans hp hpi
    have hstep : predictLoop coeffs residual shift p i (cnt + 1) data =
        predictLoop coeffs residual shift p (i + 1) cnt
          (predictInner residual shift p i coeffs 0 0 data) := rfl
    set v := add32 (residual.getD (i - p) 0)
      (sar (innerSum data i coeffs 0 0) shift) with hv
    have hset : predictInner residual shift p i coeffs 0 0 data =
        data.set i v := predictInner_set residual shift p i hi1 coeffs 0 0 data hc
    have hlen' : (i + 1) + cnt = (data.set i v).length := by
      simp; omega
    obtain ⟨L1, L2, L3⟩ := ih (i + 1) (data.set i v) (by omega) hlen'
    rw [hstep, hset]
    set F := predictLoop coeffs residual shift p (i + 1) cnt (data.set i v)
      with hF
    have flen : F.length = data.length := by rw [L1]; simp
    have hFbelow : ∀ k, k < i → F.getD k 0 = data.getD k 0 := by
      intro k hk
      rw [L2 k (by omega)]
      exact getD_set_ne _ _ _ _ (by omega)
    have hFi : F.getD i 0 = v := by
      rw [L2 i (by omega)]
      exact getD_set_self _ _ _ (by omega)
    refine ⟨flen, hFbelow, fun k hk1 hk2 => ?_⟩
    rcases Nat.eq_or_lt_of_le hk1 with hk | hk
    · subst hk
      rw [hFi, hv]
      congr 2
      exact (innerSum_congr F data i hi1 (fun k' hk' => hFbelow k' hk') coeffs 0 0).symm
    · exact L3 k (by omega) (by simp; omega)

/-- C6 (amended).  `predict` satisfies the claimed recurrence with the
arithmetic performed in Go `int32` (32-bit wrapping two's-complement)
rather than a ≥64-bit intermediate: for `i ∈ [p, block_size)`,
`D[i] = wrap32(R[i-p] + (sum >> s))` where `sum` is the wrapping
`int32` accumulation of `C[j] · D[i-j-1]`; `D[0..p] = W`; the shift is
arithmetic.  Requires `p = |C| = |W| ≥ 1` as at both call sites. -/
theorem c6_predict_recurrence_amended (C W R : List Int) (s : Nat)
    (hlen : C.length = W.length) (hp : 1 ≤ C.length) :
    (predict C W R s).length = W.length + R.length ∧
    (∀ k, k < W.length → (predict C W R s).getD k 0 = W.getD k 0) ∧
    (∀ i, W.length ≤ i → i < W.length + R.length →
      (predict C W R s).getD i 0 =
        add32 (R.getD (i - W.length) 0)
          (sar (innerSum (predict C W R s) i C 0 0) s)) := by
  have hC : C ≠ [] := by intro hnil; rw [hnil] at hp; simp at hp
  have hp' : 1 ≤ W.length := hlen ▸ hp
  obtain ⟨L1, L2, L3⟩ := predictLoop_spec C R s W.length hC hp' R.length
    W.length (W ++ List.replicate R.length 0) (le_refl _) (by simp)
  unfold predict
  refine ⟨by rw [L1]; simp, fun k hk => ?_, fun i hi1 hi2 => ?_⟩
  · rw [L2 k hk]
    rw [List.getD_eq_getElem?_getD, List.getD_eq_getElem?_getD,
      List.getElem?_append_left hk]
  · exact L3 i hi1 (by simp; omega)

/-- Witness for C6 (amended) at C = [1], W = [3], R = [5, 7], s = 0. -/
theorem c6_predict_recurrence_amended_witness :
    (predict [1] [3] [5, 7] 0).getD 1 0 =
      add32 (([5, 7] : List Int).getD 0 0)
        (sar (innerSum (predict [1] [3] [5, 7] 0) 1 [1] 0 0) 0) :=
  (c6_predict_recurrence_amended [1] [3] [5, 7] 0 (by decide) (by decide)).2.2
    1 (by decide) (by decide)

lemma bind_ok {α β : Type} (o : Outcome α) (f : α → Outcome β) (b : β)
    (h : o.bind f = .ok b) : ∃ a, o = .ok a ∧ f a = .ok b := by
  cases o with
  | ok a => exact ⟨a, rfl, h⟩
  | fail m => cases h
  | panicked m => cases h

lemma map_ok {α β : Type} (o : Outcome α) (f : α → β) (b : β)
    (h : Outcome.map f o = .ok b) : ∃ a, o = .ok a ∧ f a = b := by
  cases o with
  | ok a => exact ⟨a, rfl, by injection h⟩
  | fail m => cases h
  | panicked m => cases h

lemma natOfBits_aux : ∀ (bs : List Bool) (acc : Nat),
    bs.foldl (fun a b => 2 * a + (if b then 1 else 0)) acc <
      (acc + 1) * 2 ^ bs.length := by
  intro bs
  induction bs with
  | nil => intro acc; simp
  | cons b bs ih =>
    intro acc
    have h1 := ih (2 * acc + (if b then 1 else 0))
    have h2 : (2 * acc + (if b then 1 else 0) + 1) * 2 ^ bs.length ≤
        (acc + 1) * 2 ^ (bs.length + 1) := by
      rw [pow_succ]
      have : 2 * acc + (if b then 1 else 0) + 1 ≤ (acc + 1) * 2 := by
        cases b <;> simp <;> omega
      calc (2 * acc + (if b then 1 else 0) + 1) * 2 ^ bs.length
          ≤ (acc + 1) * 2 * 2 ^ bs.length := Nat.mul_le_mul_right _ this
        _ = (acc + 1) * (2 ^ bs.length * 2) := by ring
    calc (b :: bs).foldl (fun a c => 2 * a + (if c then 1 else 0)) acc
        = bs.foldl (fun a c => 2 * a + (if c then 1 else 0))
            (2 * acc + (if b then 1 else 0)) := rfl
      _ < (2 * acc + (if b then 1 else 0) + 1) * 2 ^ bs.length := h1
      _ ≤ (acc + 1) * 2 ^ (bs.length + 1) := h2
      _ = (acc + 1) * 2 ^ (b :: bs).length := by simp

lemma natOfBits_lt (bs : List Bool) : natOfBits bs < 2 ^ bs.length := by
  have := natOfBits_aux bs 0
  simpa [natOfBits] using this

/-- Every value produced by an `n`-bit read is below `2^n`. -/
lemma readBits_lt (n : Nat) (r : Reader) (v : Nat) (r' : Reader)
    (h : readBits n r = .ok (v, r')) : v < 2 ^ n := by
  unfold readBits at h
  simp only [] at h
  split at h
  · cases h
  · injection h with h'
    have hv : v = natOfBits ((r.buf ++
        (r.rest.take ((n - r.buf.length + 7) / 8)).flatMap bitsOfByte).take n) :=
      (congrArg Prod.fst h').symm
    subst hv
    calc natOfBits _ < 2 ^ (List.take n _).length := natOfBits_lt _
      _ ≤ 2 ^ n := Nat.pow_le_pow_right (by omega) (by simp)

lemma readStreamInfo_good (block : List Nat) (si : StreamInfo)
    (h : readStreamInfo block = .ok si) :
    0 < si.SampleRate ∧ 1 ≤ si.NChannels ∧ si.NChannels ≤ 8 ∧
      1 ≤ si.BitsPerSample ∧ si.BitsPerSample ≤ 32 := by
  unfold readStreamInfo at h
  obtain ⟨f0, e0, h⟩ := bind_ok _ _ _ h
  obtain ⟨f1, e1, h⟩ := bind_ok _ _ _ h
  obtain ⟨f2, e2, h⟩ := bind_ok _ _ _ h
  obtain ⟨f3, e3, h⟩ := bind_ok _ _ _ h
  obtain ⟨f4, e4, h⟩ := bind_ok _ _ _ h
  obtain ⟨f5, e5, h⟩ := bind_ok _ _ _ h
  obtain ⟨f6, e6, h⟩ := bind_ok _ _ _ h
  obtain ⟨f7, e7, h⟩ := bind_ok _ _ _ h
  simp only [] at h
  split at h
  · cases h
  · split at h
    · cases h
    · rename_i hrate
      injection h with h'
      subst h'
      have h5 : f5.1 < 2 ^ 3 := readBits_lt _ _ _ _ (by rw [← e5])
      have h6 : f6.1 < 2 ^ 5 := readBits_lt _ _ _ _ (by rw [← e6])
      simp only [] at hrate ⊢
      refine ⟨by omega, by omega, by omega, by omega, by omega⟩

lemma processMetaBlock_good (kind : Nat) (block : List Nat)
    (meta meta' : MetaData)
    (h : processMetaBlock kind block meta = .ok meta')
    (hm : ∀ si, meta.streamInfo = some si →
      0 < si.SampleRate ∧ 1 ≤ si.NChannels ∧ si.NChannels ≤ 8 ∧
        1 ≤ si.BitsPerSample ∧ si.BitsPerSample ≤ 32) :
    ∀ si, meta'.streamInfo = some si →
      0 < si.SampleRate ∧ 1 ≤ si.NChannels ∧ si.NChannels ≤ 8 ∧
        1 ≤ si.BitsPerSample ∧ si.BitsPerSample ≤ 32 := by
  unfold processMetaBlock at h
  split at h
  · cases h
  · split at h
    · obtain ⟨si0, e0, h'⟩ := map_ok _ _ _ h
      subst h'
      intro si hsi
      simp only [] at hsi
      rw [Option.some.injEq] at hsi
      subst hsi
      exact readStreamInfo_good block si0 e0
    · split at h
      · obtain ⟨vc, e0, h'⟩ := map_ok _ _ _ h
        subst h'
        intro si hsi
        exact hm si hsi
      · injection h with h'
        subst h'
        exact hm

lemma readMetaDataLoop_good : ∀ (fuel : Nat) (meta : MetaData) (s : List Nat)
    (meta' : MetaData) (s' : List Nat),
    readMetaDataLoop fuel meta s = .ok (meta', s') →
    (∀ si, meta.streamInfo = some si →
      0 < si.SampleRate ∧ 1 ≤ si.NChannels ∧ si.NChannels ≤ 8 ∧
        1 ≤ si.BitsPerSample ∧ si.BitsPerSample ≤ 32) →
    (∀ si, meta'.streamInfo = some si →
      0 < si.SampleRate ∧ 1 ≤ si.NChannels ∧ si.NChannels ≤ 8 ∧
        1 ≤ si.BitsPerSample ∧ si.BitsPerSample ≤ 32) := by
  intro fuel
  induction fuel with
  | zero => intro meta s meta' s' h _; cases h
  | succ fuel ih =>
    intro meta s meta' s' h hm
    unfold readMetaDataLoop at h
    obtain ⟨hd, e0, h⟩ := bind_ok _ _ _ h
    obtain ⟨meta1, e1, h⟩ := bind_ok _ _ _ h
    have hm1 := processMetaBlock_good _ _ _ _ e1 hm
    split at h
    · injection h with h'
      have : meta1 = meta' := congrArg Prod.fst h'
      subst this
      exact hm1
    · exact ih _ _ _ _ h hm1

/-- C7 (amended).  Whenever `NewDecoder` succeeds, the returned
StreamInfo satisfies `sample_rate > 0`, `channels ∈ [1,8]` and
`bits_per_sample ∈ [1,32]`; the decoder does not enforce the FLAC lower
bound of 4 bits per sample. -/
theorem c7_stream_info_invariants_amended (s : List Nat) (md : MetaData)
    (rest : List Nat) (si : StreamInfo)
    (h : newDecoder s = .ok (md, rest)) (hsi : md.streamInfo = some si) :
    0 < si.SampleRate ∧ 1 ≤ si.NChannels ∧ si.NChannels ≤ 8 ∧
      1 ≤ si.BitsPerSample ∧ si.BitsPerSample ≤ 32 := by
  unfold newDecoder at h
  obtain ⟨s1, e0, h⟩ := bind_ok _ _ _ h
  obtain ⟨ms, e1, h⟩ := bind_ok _ _ _ h
  have hloop := readMetaDataLoop_good (s1.length + 1) ⟨none, none⟩ s1 ms.1 ms.2
  split at h
  · cases h
  · injection h with h'
    have hmd : ms.1 = md := congrArg Prod.fst h'
    refine hloop (by rw [← e1]; rfl) (fun si' hsi' => by cases hsi') si ?_
    rw [hmd]
    exact hsi

/-- Witness for C7 (amended) on a concrete valid stream
(rate 1, mono, 8 bits per sample). -/
theorem c7_stream_info_invariants_amended_witness :
    0 < 1 ∧ 1 ≤ 1 ∧ 1 ≤ 8 ∧ 1 ≤ 8 ∧ 8 ≤ 32 := by
  have h := c7_stream_info_invariants_amended
    ([102, 76, 97, 67, 0x80, 0, 0, 34] ++
      [0, 0, 0, 0, 0, 0, 0, 0, 0, 0, 0, 0, 0x10, 0x70, 0, 0, 0, 0] ++
      List.replicate 16 0)
    { streamInfo := some
        { MinBlock := 0, MaxBlock := 0, MinFrame := 0, MaxFrame := 0,
          SampleRate := 1, NChannels := 1, BitsPerSample := 8,
          TotalSamples := 0, MD5 := List.replicate 16 0 },
      vorbis := none } []
    { MinBlock := 0, MaxBlock := 0, MinFrame := 0, MaxFrame := 0,
      SampleRate := 1, NChannels := 1, BitsPerSample := 8,
      TotalSamples := 0, MD5 := List.replicate 16 0 }
    (by decide) (by decide)
  exact h

lemma riceDecodeLoop_len (M : Nat) : ∀ (cnt : Nat) (r : Reader)
    (vals : List Int) (r' : Reader),
    riceDecodeLoop M cnt r = .ok (vals, r') → vals.length = cnt := by
  intro cnt
  induction cnt with
  | zero =>
    intro r vals r' h
    injection h with h'
    cases h'
    rfl
  | succ n ih =>
    intro r vals r' h
    unfold riceDecodeLoop at h
    obtain ⟨q, eq, h⟩ := bind_ok _ _ _ h
    obtain ⟨u0, eu, h⟩ := bind_ok _ _ _ h
    obtain ⟨vs, ev, h'⟩ := map_ok _ _ _ h
    have hv : vals = _ :: vs.1 := (congrArg Prod.fst h').symm
    rw [hv]
    simp [ih _ _ _ ev]

lemma riceDecode_len (n : Int) (M : Nat) (r : Reader) (vals : List Int)
    (r' : Reader) (h : riceDecode n M r = .ok (vals, r')) :
    0 ≤ n ∧ (vals.length : Int) = n := by
  unfold riceDecode at h
  split at h
  · cases h
  · rename_i hn
    have h0 : 0 ≤ n := by omega
    refine ⟨h0, ?_⟩
    rw [riceDecodeLoop_len M n.toNat r vals r' h]
    exact Int.toNat_of_nonneg h0

lemma partLen_pos_eq (b p : Int) (partO : Nat) (i : Nat) (hi : 1 ≤ i) :
    partLen b p partO i = partLen b p partO 1 := by
  unfold partLen
  split
  · rfl
  · rw [if_pos (by omega), if_pos (by omega)]

lemma resLoop_len (bits : Nat) (b p : Int) (partO : Nat) :
    ∀ (cnt i : Nat) (acc : List Int) (r : Reader) (res : List Int)
      (r' : Reader), 1 ≤ i →
      resLoop bits b p partO i cnt acc r = .ok (res, r') →
      (res.length : Int) = acc.length + cnt * partLen b p partO 1 ∧
        (1 ≤ cnt → 0 ≤ partLen b p partO 1) := by
  intro cnt
  induction cnt with
  | zero =>
    intro i acc r res r' _ h
    injection h with h'
    have : res = acc := (congrArg Prod.fst h').symm
    subst this
    simp
  | succ n ih =>
    intro i acc r res r' hi h
    unfold resLoop at h
    obtain ⟨M, eM, h⟩ := bind_ok _ _ _ h
    split at h
    · cases h
    · obtain ⟨pp, ep, h⟩ := bind_ok _ _ _ h
      obtain ⟨hn0, hlen⟩ := riceDecode_len _ _ _ _ _ ep
      rw [partLen_pos_eq b p partO i hi] at hn0 hlen
      obtain ⟨ihl, _⟩ := ih (i + 1) (acc ++ pp.1) pp.2 res r' (by omega) h
      constructor
      · rw [ihl, List.length_append, Nat.cast_add, hlen]
        push_cast
        ring
      · intro _
        exact hn0

lemma partLen_zero (b p : Int) (i : Nat) : partLen b p 0 i = b - p := by
  unfold partLen
  rw [if_pos rfl]

lemma partLen0_pos (b p : Int) (P : Nat) (hP : P ≠ 0) :
    partLen b p P 0 = goDiv b (2 ^ P) - p := by
  unfold partLen
  rw [if_neg hP, if_neg (by omega)]

lemma partLen1_pos (b p : Int) (P : Nat) (hP : P ≠ 0) :
    partLen b p P 1 = goDiv b (2 ^ P) := by
  unfold partLen
  rw [if_neg hP, if_pos (by omega)]

lemma cast_two_pow (P : Nat) : (((2 ^ P : Nat) : Int)) = (2 : Int) ^ P := by
  push_cast
  ring

lemma decodeResiduals_len (b p : Int) (r : Reader) (res : List Int)
    (r' : Reader) (h : decodeResiduals b p r = .ok (res, r')) :
    (res.length : Int) =
        2 ^ resPartOrder r * goDiv b (2 ^ resPartOrder r) - p ∧
      0 ≤ partLen b p (resPartOrder r) 0 ∧
      (resPartOrder r = 0 ∨ 0 ≤ partLen b p (resPartOrder r) 1) := by
  unfold decodeResiduals at h
  obtain ⟨m, em, h⟩ := bind_ok _ _ _ h
  obtain ⟨bits, eb, h⟩ := bind_ok _ _ _ h
  obtain ⟨po, epo, h⟩ := bind_ok _ _ _ h
  have hP : resPartOrder r = po.1 := by
    unfold resPartOrder
    rw [em]
    dsimp only
    rw [epo]
  rw [hP]
  obtain ⟨cnt', hcnt⟩ : ∃ c, 2 ^ po.1 = c + 1 :=
    ⟨2 ^ po.1 - 1, by have := Nat.one_le_two_pow (n := po.1); omega⟩
  rw [hcnt] at h
  unfold resLoop at h
  obtain ⟨M0, eM0, h⟩ := bind_ok _ _ _ h
  split at h
  · cases h
  · obtain ⟨p0, ep0, h⟩ := bind_ok _ _ _ h
    obtain ⟨hn0, hlen0⟩ := riceDecode_len _ _ _ _ _ ep0
    obtain ⟨hl, himp⟩ := resLoop_len bits b p po.1 cnt' 1 ([] ++ p0.1) p0.2
      res r' (by omega) h
    refine ⟨?_, hn0, ?_⟩
    · rw [hl]
      simp only [List.nil_append]
      rw [hlen0]
      by_cases hP0 : po.1 = 0
      · have hc0 : cnt' = 0 := by
          rw [hP0] at hcnt
          simp at hcnt
          omega
        rw [hP0, hc0]
        simp [partLen_zero, goDiv, Int.tdiv_one]
      · have hc : (cnt' : Int) = (2 : Int) ^ po.1 - 1 := by
          have h2 : ((2 ^ po.1 : Nat) : Int) = ((cnt' + 1 : Nat) : Int) := by
            rw [hcnt]
          rw [cast_two_pow] at h2
          push_cast at h2
          omega
        rw [partLen0_pos b p po.1 hP0, partLen1_pos b p po.1 hP0, hc]
        ring
    · by_cases hP0 : po.1 = 0
      · exact Or.inl hP0
      · have h2 : 2 ≤ 2 ^ po.1 := by
          have hp1 : 1 ≤ po.1 := Nat.one_le_iff_ne_zero.mpr hP0
          calc (2 : Nat) = 2 ^ 1 := by norm_num
            _ ≤ 2 ^ po.1 := Nat.pow_le_pow_right (by omega) hp1
        exact Or.inr (himp (by omega))

lemma predictInner_length (residual : List Int) (shift p i : Nat) :
    ∀ (coeffs : List Int) (j : Nat) (sum : Int) (data : List Int),
      (predictInner residual shift p i coeffs j sum data).length =
        data.length := by
  intro coeffs
  induction coeffs with
  | nil => intro j sum data; rfl
  | cons c cs ih =>
    intro j sum data
    rw [show predictInner residual shift p i (c :: cs) j sum data =
        predictInner residual shift p i cs (j + 1)
          (add32 sum (mul32 c (data.getD (i - j - 1) 0)))
          (data.set i (add32 (residual.getD (i - p) 0)
            (sar (add32 sum (mul32 c (data.getD (i - j - 1) 0))) shift)))
        from rfl]
    rw [ih]
    simp

lemma predictLoop_length (coeffs residual : List Int) (shift p : Nat) :
    ∀ (cnt i : Nat) (data : List Int),
      (predictLoop coeffs residual shift p i cnt data).length =
        data.length := by
  intro cnt
  induction cnt with
  | zero => intro i data; rfl
  | succ n ih =>
    intro i data
    rw [show predictLoop coeffs residual shift p i (n + 1) data =
        predictLoop coeffs residual shift p (i + 1) n
          (predictInner residual shift p i coeffs 0 0 data) from rfl]
    rw [ih, predictInner_length]

/-- The predictor's output always has `|W| + |R|` samples. -/
lemma predict_length (coeffs warm residual : List Int) (shift : Nat) :
    (predict coeffs warm residual shift).length =
      warm.length + residual.length := by
  unfold predict
  rw [predictLoop_length]
  simp

lemma readInts_len : ∀ (n bits : Nat) (r : Reader) (l : List Int)
    (r' : Reader), readInts n bits r = .ok (l, r') → l.length = n := by
  intro n
  induction n with
  | zero =>
    intro bits r l r' h
    injection h with h'
    cases h'
    rfl
  | succ n ih =>
    intro bits r l r' h
    unfold readInts at h
    obtain ⟨w, ew, h⟩ := bind_ok _ _ _ h
    obtain ⟨ir, eir, h'⟩ := map_ok _ _ _ h
    have : l = signExtend w.1 bits :: ir.1 := (congrArg Prod.fst h').symm
    rw [this]
    simp [ih _ _ _ _ eir]

lemma tdiv_mul_le (b : Int) (P : Nat) (hb : 0 ≤ b) :
    2 ^ P * goDiv b (2 ^ P) ≤ b := by
  unfold goDiv
  rw [Int.tdiv_eq_ediv hb (by positivity)]
  rw [mul_comm]
  exact Int.ediv_mul_le b (by positivity)

lemma decodeResiduals_le (b p : Int) (r : Reader) (res : List Int)
    (r' : Reader) (hb : 0 ≤ b)
    (h : decodeResiduals b p r = .ok (res, r')) :
    (res.length : Int) + p ≤ b := by
  obtain ⟨hlen, _, _⟩ := decodeResiduals_len b p r res r' h
  rw [hlen]
  have := tdiv_mul_le b (resPartOrder r) hb
  omega

lemma decodeFixedSubFrame_le (bps : Nat) (b : Int) (predO : Nat)
    (r : Reader) (buf : List Int) (r' : Reader) (hb : 0 ≤ b)
    (h : decodeFixedSubFrame bps b predO r = .ok (buf, r')) :
    (buf.length : Int) ≤ b := by
  unfold decodeFixedSubFrame at h
  obtain ⟨warm, ew, h⟩ := bind_ok _ _ _ h
  obtain ⟨res, er, h⟩ := bind_ok _ _ _ h
  have hres := decodeResiduals_le b (Int.ofNat predO) warm.2 res.1 res.2
    hb (by rw [← er])
  rw [Int.ofNat_eq_natCast] at hres
  split at h
  · injection h with h'
    have hb2 : buf = res.1 := (congrArg Prod.fst h').symm
    rw [hb2]
    omega
  · injection h with h'
    have hbuf : buf = predict (fixedCoeffs.getD predO []) warm.1 res.1 0 :=
      (congrArg Prod.fst h').symm
    rw [hbuf, predict_length]
    have hw : warm.1.length = predO := readInts_len _ _ _ _ _ (by rw [← ew])
    rw [hw]
    push_cast
    omega

lemma decodeLPCSubFrame_le (bps : Nat) (b : Int) (predO : Nat)
    (r : Reader) (buf : List Int) (r' : Reader) (hb : 0 ≤ b)
    (h : decodeLPCSubFrame bps b predO r = .ok (buf, r')) :
    (buf.length : Int) ≤ b := by
  unfold decodeLPCSubFrame at h
  obtain ⟨warm, ew, h⟩ := bind_ok _ _ _ h
  obtain ⟨prec0, ep, h⟩ := bind_ok _ _ _ h
  split at h
  · cases h
  · obtain ⟨s5, es, h⟩ := bind_ok _ _ _ h
    simp only [] at h
    split at h
    · cases h
    · obtain ⟨coeffs, ec, h⟩ := bind_ok _ _ _ h
      obtain ⟨res, er, h⟩ := bind_ok _ _ _ h
      have hres := decodeResiduals_le b (Int.ofNat predO) coeffs.2 res.1 res.2
        hb (by rw [← er])
      rw [Int.ofNat_eq_natCast] at hres
      injection h with h'
      have hbuf : buf = predict coeffs.1 warm.1 res.1
          (signExtend s5.1 5).toNat := (congrArg Prod.fst h').symm
      rw [hbuf, predict_length]
      have hw : warm.1.length = predO := readInts_len _ _ _ _ _ (by rw [← ew])
      rw [hw]
      push_cast
      omega

lemma decodeSubFrame_le (bps : Nat) (b : Int) (r : Reader) (buf : List Int)
    (r' : Reader) (hb : 0 ≤ b)
    (h : decodeSubFrame bps b r = .ok (buf, r')) : (buf.length : Int) ≤ b := by
  unfold decodeSubFrame at h
  obtain ⟨kr, ek, h⟩ := bind_ok _ _ _ h
  obtain ⟨⟨kind, order⟩, rr⟩ := kr
  cases kind <;> dsimp only at h
  case constant =>
    obtain ⟨v, ev, h⟩ := bind_ok _ _ _ h
    split at h
    · cases h
    · injection h with h'
      have : buf = List.replicate b.toNat (signExtend v.1 bps) :=
        (congrArg Prod.fst h').symm
      rw [this]
      simp
      omega
  case verbatim =>
    split at h
    · cases h
    · have := readInts_len b.toNat bps _ _ _ h
      rw [this]
      omega
  case fixed => exact decodeFixedSubFrame_le bps b order rr buf r' hb h
  case lpc => exact decodeLPCSubFrame_le bps b order rr buf r' hb h

/-- Every reachable `blockSizes` entry is positive. -/
lemma blockSizes_pos : ∀ k < 16, k ≠ 0 → k ≠ 6 → k ≠ 7 →
    1 ≤ blockSizes.getD k 0 := by decide

/-- A successfully parsed frame header has a positive block size. -/
lemma readFrameHeader_blockSize_pos (info : StreamInfo) (r : Reader)
    (h : FrameHeader) (r' : Reader)
    (hok : readFrameHeader info r = .ok (h, r')) : 1 ≤ h.blockSize := by
  unfold readFrameHeader at hok
  simp only [] at hok
  obtain ⟨sy, esy, hok⟩ := bind_ok _ _ _ hok
  split at hok
  · cases hok
  · obtain ⟨f0, e0, hok⟩ := bind_ok _ _ _ hok
    obtain ⟨f1, e1, hok⟩ := bind_ok _ _ _ hok
    obtain ⟨f2, e2, hok⟩ := bind_ok _ _ _ hok
    obtain ⟨f3, e3, hok⟩ := bind_ok _ _ _ hok
    obtain ⟨f4, e4, hok⟩ := bind_ok _ _ _ hok
    obtain ⟨f5, e5, hok⟩ := bind_ok _ _ _ hok
    obtain ⟨f6, e6, hok⟩ := bind_ok _ _ _ hok
    split at hok
    · cases hok
    · split at hok
      · cases hok
      · obtain ⟨ss, ess, hok⟩ := bind_ok _ _ _ hok
        obtain ⟨num, enum, hok⟩ := bind_ok _ _ _ hok
        obtain ⟨bs, ebs, hok⟩ := bind_ok _ _ _ hok
        obtain ⟨sr, esr, hok⟩ := bind_ok _ _ _ hok
        obtain ⟨c8v, ec8, hok⟩ := bind_ok _ _ _ hok
        obtain ⟨u, eu, hok⟩ := map_ok _ _ _ hok
        rw [Prod.mk.injEq] at hok
        obtain ⟨hfe, _⟩ := hok
        rw [← hfe]
        show 1 ≤ bs.1
        have hf2 : f2.1 < 16 := readBits_lt 4 _ _ _ e2
        split at ebs
        · cases ebs
        · split at ebs
          · obtain ⟨sz, esz, ebs2⟩ := map_ok _ _ _ ebs
            rw [Prod.mk.injEq] at ebs2
            obtain ⟨hbs1, _⟩ := ebs2
            rw [← hbs1, Int.ofNat_eq_natCast]
            omega
          · split at ebs
            · obtain ⟨sz, esz, ebs2⟩ := map_ok _ _ _ ebs
              rw [Prod.mk.injEq] at ebs2
              obtain ⟨hbs1, _⟩ := ebs2
              rw [← hbs1, Int.ofNat_eq_natCast]
              omega
            · injection ebs with ebs2
              rw [Prod.mk.injEq] at ebs2
              obtain ⟨hbs1, _⟩ := ebs2
              rw [← hbs1]
              exact blockSizes_pos f2.1 hf2 (by assumption) (by assumption)
                (by assumption)

lemma fixLeftSide_length (d0 d1 d1' : List Int)
    (h : fixLeftSide d0 d1 = .ok d1') : d1'.length = d1.length := by
  unfold fixLeftSide at h
  split at h
  · cases h
  · injection h with h'
    rw [← h']
    simp
    omega

lemma fixRightSide_length (d0 d1 d0' : List Int)
    (h : fixRightSide d0 d1 = .ok d0') : d0'.length = d0.length := by
  unfold fixRightSide at h
  split at h
  · cases h
  · injection h with h'
    rw [← h']
    simp
    omega

lemma fixMidSide_length (d0 d1 : List Int) (p : List Int × List Int)
    (h : fixMidSide d0 d1 = .ok p) :
    p.1.length = d0.length ∧ p.2.length = d1.length := by
  unfold fixMidSide at h
  split at h
  · cases h
  · injection h with h'
    rw [← h']
    constructor
    · simp
      omega
    · simp
      omega

/-- `fixChannels` preserves the length of every channel buffer: any
buffer of the output has the length of the corresponding input
buffer. -/
lemma fixChannels_mem_length (assign : Nat) (data data' : List (List Int))
    (h : fixChannels assign data = .ok data') :
    ∀ x ∈ data', ∃ y ∈ data, x.length = y.length := by
  unfold fixChannels at h
  split at h
  · match data, h with
    | d0 :: d1 :: rest, h =>
      obtain ⟨d1', e1, h'⟩ := map_ok _ _ _ h
      subst h'
      intro x hx
      rw [List.mem_cons, List.mem_cons] at hx
      rcases hx with hx | hx | hx
      · exact ⟨d0, by simp, by rw [hx]⟩
      · exact ⟨d1, by simp, by rw [hx]; exact fixLeftSide_length d0 d1 d1' e1⟩
      · exact ⟨x, by simp [hx], rfl⟩
  · split at h
    · match data, h with
      | d0 :: d1 :: rest, h =>
        obtain ⟨d0', e1, h'⟩ := map_ok _ _ _ h
        subst h'
        intro x hx
        rw [List.mem_cons, List.mem_cons] at hx
        rcases hx with hx | hx | hx
        · exact ⟨d0, by simp, by rw [hx]; exact fixRightSide_length d0 d1 d0' e1⟩
        · exact ⟨d1, by simp, by rw [hx]⟩
        · exact ⟨x, by simp [hx], rfl⟩
    · split at h
      · match data, h with
        | d0 :: d1 :: rest, h =>
          obtain ⟨p, e1, h'⟩ := map_ok _ _ _ h
          subst h'
          obtain ⟨hp1, hp2⟩ := fixMidSide_length d0 d1 p e1
          intro x hx
          rw [List.mem_cons, List.mem_cons] at hx
          rcases hx with hx | hx | hx
          · exact ⟨d0, by simp, by rw [hx]; exact hp1⟩
          · exact ⟨d1, by simp, by rw [hx]; exact hp2⟩
          · exact ⟨x, by simp [hx], rfl⟩
      · injection h with h'
        subst h'
        intro x hx
        exact ⟨x, hx, rfl⟩

lemma subFramesLoop_le (hh : FrameHeader) :
    ∀ (cnt ch : Nat) (r : Reader) (ds : List (List Int)) (r' : Reader),
      subFramesLoop hh ch cnt r = .ok (ds, r') →
      ∀ buf ∈ ds, (buf.length : Int) ≤ hh.blockSize ∨ hh.blockSize < 0 := by
  intro cnt
  induction cnt with
  | zero =>
    intro ch r ds r' h buf hbuf
    injection h with h'
    have : ds = [] := (congrArg Prod.fst h').symm
    subst this
    cases hbuf
  | succ n ih =>
    intro ch r ds r' h buf hbuf
    unfold subFramesLoop at h
    obtain ⟨d, ed, h⟩ := bind_ok _ _ _ h
    obtain ⟨ds', eds, h'⟩ := map_ok _ _ _ h
    have : ds = d.1 :: ds'.1 := (congrArg Prod.fst h').symm
    subst this
    rw [List.mem_cons] at hbuf
    rcases hbuf with hbuf | hbuf
    · subst hbuf
      by_cases hb : 0 ≤ hh.blockSize
      · exact Or.inl (decodeSubFrame_le _ _ _ _ _ hb ed)
      · exact Or.inr (by omega)
    · exact ih _ _ _ _ eds buf hbuf

/-- C5 (amended).  A successful `Next` never returns a channel buffer
longer than the frame's block size, and every buffer has exactly the
block-size many samples precisely when the Rice partition count `2^P`
of each FIXED/LPC subframe divides the block size: the second conjunct
shows `decodeResiduals` produces exactly `blockSize - predOrder`
residuals whenever `2^P ∣ blockSize` (CONSTANT and VERBATIM subframes
always produce exactly `blockSize` samples).  When `2^P` does not
divide the block size the partitions hold the truncated quotient and
the buffer falls short, as the counterexample shows. -/
theorem c5_buffer_length_amended :
    (∀ (info : StreamInfo) (s : List Nat) (d : List (List Int))
       (s' : List Nat) (hh : FrameHeader) (r1 : Reader),
       next info s = .ok (d, s') →
       readFrameHeader info (Reader.mk0 s) = .ok (hh, r1) →
       ∀ buf ∈ d, buf.length ≤ hh.blockSize.toNat) ∧
    (∀ (b p : Int) (r : Reader) (res : List Int) (r' : Reader),
       decodeResiduals b p r = .ok (res, r') →
       (2 ^ resPartOrder r : Int) ∣ b → (res.length : Int) = b - p) := by
  constructor
  · intro info s d s' hh r1 hnext hhdr
    unfold next at hnext
    obtain ⟨hr, eH, hnext⟩ := bind_ok _ _ _ hnext
    rw [hhdr] at eH
    injection eH with eH
    subst eH
    simp only [] at hnext
    obtain ⟨dr, eSub, hnext⟩ := bind_ok _ _ _ hnext
    obtain ⟨cr, eCR, hnext⟩ := bind_ok _ _ _ hnext
    obtain ⟨uv, eV, hnext⟩ := bind_ok _ _ _ hnext
    obtain ⟨dataF, eFix, heq⟩ := map_ok _ _ _ hnext
    have hd : d = dataF := by
      have := congrArg Prod.fst heq.symm
      simpa using this
    subst hd
    have hpos : 1 ≤ hh.blockSize := by
      simpa using readFrameHeader_blockSize_pos info (Reader.mk0 s)
        ((hh, r1).1) ((hh, r1).2) hhdr
    intro buf hbuf
    obtain ⟨y, hy, hylen⟩ := fixChannels_mem_length _ _ _ eFix buf hbuf
    have hle := subFramesLoop_le _ _ _ _ _ _ eSub y hy
    rcases hle with hle | hle
    · rw [hylen]
      omega
    · omega
  · intro b p r res r' h hdvd
    obtain ⟨hlen, _, _⟩ := decodeResiduals_len b p r res r' h
    rw [hlen]
    unfold goDiv
    rw [Int.tdiv_eq_ediv_of_dvd hdvd, Int.mul_ediv_cancel' hdvd]

/-- Witness for C5 (amended): a one-sample CONSTANT frame decoded by
`next`, and an exactly partitioned residual decode. -/
theorem c5_buffer_length_amended_witness :
    (([(7 : Int)] : List Int).length ≤ (1 : Int).toNat) ∧
    ((([(0 : Int), 0] : List Int).length : Int) = 2 - 0) := by
  constructor
  · exact c5_buffer_length_amended.1 infoEx
      [255, 248, 105, 2, 0, 0, 154, 0, 7, 180, 87] [[7]] []
      { variableSize := false, blockSize := 1, sampleRate := 44100,
        channelAssignment := 0, sampleSize := 8, number := 0, crc8 := 154 }
      ⟨[], [0, 7, 180, 87], [255, 248, 105, 2, 0, 0, 154]⟩
      (by decide) (by decide) [7] (by decide)
  · exact c5_buffer_length_amended.2 2 0
      ⟨[false, false, false, false, false, false, false, false, false,
        false, true, true], [], []⟩ [0, 0] ⟨[], [], []⟩
      (by decide) (by decide)
